import Mathlib

/-!
# OpenXcom `MovingTarget` — movement model and follower bookkeeping

Shallow embedding of `src/Savegame/MovingTarget.cpp`.

* A C++ `double` is a value of a type `α` carrying the operations the file uses
  (`DoubleOps α`).  Every operation of the program is written against that
  interface, so the embedding is executable for any implementation of it.
  Numerical statements are proved for `IdealDouble`: exact real arithmetic with
  one extra value `nan` for a non-finite result (a division by zero, `acos`
  outside `[-1, 1]`, `sqrt` of a negative number).
* A pointer is a `Nat` address, the null pointer is `none : Option Nat`.
* The heap is a `World α`: a function from addresses to objects.  Every object
  has the `Target` base fields; the `MovingTarget` fields of an object are only
  touched by the `MovingTarget` member functions called on that address, so a
  plain `Target` is an address on which none of them is ever called.
-/

namespace OpenXcom

/-- Operations on `double` used by `MovingTarget.cpp`: conversion from `int`
(also used for the literals `0.0`, `1`, `60.0`, `180`, `720.0`), `M_PI`, the four
arithmetic operators, `sin`, `cos`, `acos`, `sqrt` and the comparisons `>=`, `==`. -/
class DoubleOps (α : Type) where
  ofInt : Int → α
  pi : α
  add : α → α → α
  sub : α → α → α
  mul : α → α → α
  div : α → α → α
  sin : α → α
  cos : α → α
  acos : α → α
  sqrt : α → α
  ge : α → α → Bool
  eq : α → α → Bool

open DoubleOps

/-- Modelled from the spec: the base class `Target` (`Target.h`/`Target.cpp` are
not among the sources): a position in radians and the collection of followers,
the addresses of the objects that have designated this target as destination. -/
structure Target (α : Type) where
  _lon : α
  _lat : α
  _followers : List Nat

/-- The class `MovingTarget`, derived from `Target`; fields as initialised by the
constructor at `MovingTarget.cpp:29`. -/
structure MovingTarget (α : Type) extends Target α where
  _dest : Option Nat
  _speedLon : α
  _speedLat : α
  _radianSpeed : α
  _distCurrent : α
  _distMax : α
  _speed : Int

/-- The heap: the object stored at each address. -/
def World (α : Type) : Type := Nat → MovingTarget α

variable {α : Type}

/-- Store to the object at address `p`. -/
def World.update (w : World α) (p : Nat) (f : MovingTarget α → MovingTarget α) : World α :=
  fun q => if q = p then f (w q) else w q

/-- `MovingTarget::MovingTarget()`: `Target()` (blank coordinates, no followers),
`_dest(0)`, the five doubles `0.0`, `_speed(0)`. -/
def MovingTarget.new [DoubleOps α] : MovingTarget α :=
  { _lon := ofInt 0, _lat := ofInt 0, _followers := [],
    _dest := none, _speedLon := ofInt 0, _speedLat := ofInt 0, _radianSpeed := ofInt 0,
    _distCurrent := ofInt 0, _distMax := ofInt 0, _speed := 0 }

/-- A heap in which every object has just been constructed. -/
def World.fresh [DoubleOps α] : World α := fun _ => MovingTarget.new

/-- Modelled from the spec: `Target::getLongitude`, a plain accessor. -/
def getLongitude (w : World α) (p : Nat) : α := (w p)._lon

/-- Modelled from the spec: `Target::getLatitude`, a plain accessor. -/
def getLatitude (w : World α) (p : Nat) : α := (w p)._lat

/-- Modelled from the spec: `Target::getFollowers`, the live follower collection. -/
def getFollowers (w : World α) (p : Nat) : List Nat := (w p)._followers

/-- Modelled from the spec: `Target::setLongitude`, a raw assignment. -/
def setLongitude (w : World α) (p : Nat) (lon : α) : World α :=
  w.update p (fun o => { o with _lon := lon })

/-- Modelled from the spec: `Target::setLatitude`, a raw assignment. -/
def setLatitude (w : World α) (p : Nat) (lat : α) : World α :=
  w.update p (fun o => { o with _lat := lat })

/-- `MovingTarget::getDestination`. -/
def getDestination (w : World α) (this : Nat) : Option Nat := (w this)._dest

/-- `MovingTarget::getSpeed`. -/
def getSpeed (w : World α) (this : Nat) : Int := (w this)._speed

/-- `MovingTarget::getDistance` (`MovingTarget.cpp:138`):
`acos(cos(_lat) * cos(tlat) * cos(tlon - _lon) + sin(_lat) * sin(tlat))`. -/
def getDistance [DoubleOps α] (w : World α) (this target : Nat) : α :=
  acos (add
    (mul (mul (cos (w this)._lat) (cos (getLatitude w target)))
      (cos (sub (getLongitude w target) (w this)._lon)))
    (mul (sin (w this)._lat) (sin (getLatitude w target))))

/-- `MovingTarget::calculateSpeed` (`MovingTarget.cpp:148`).  `_speedLon` is
assigned first and reads the old `_speedLat`; nothing guards the two divisions. -/
def calculateSpeed [DoubleOps α] (w : World α) (this : Nat) : World α :=
  match (w this)._dest with
  | some d =>
    let dLon : α := mul (sin (sub (getLongitude w d) (w this)._lon)) (cos (getLatitude w d))
    let dLat : α := sub (mul (cos (w this)._lat) (sin (getLatitude w d)))
      (mul (mul (sin (w this)._lat) (cos (getLatitude w d)))
        (cos (sub (getLongitude w d) (w this)._lon)))
    let length : α := sqrt (add (mul dLon dLon) (mul dLat dLat))
    let w1 := w.update this (fun o =>
      { o with _speedLon := div (mul (div dLon length) o._radianSpeed) (cos (add o._lat o._speedLat)) })
    w1.update this (fun o => { o with _speedLat := mul (div dLat length) o._radianSpeed })
  | none =>
    let w1 := w.update this (fun o => { o with _speedLon := ofInt 0 })
    w1.update this (fun o => { o with _speedLat := ofInt 0 })

/-- `MovingTarget::setDestination` (`MovingTarget.cpp:79`).  The loop over the old
destination's followers erases the first entry equal to `this` and stops, which
is `List.erase`; `push_back` is an append at the end. -/
def setDestination [DoubleOps α] (w : World α) (this : Nat) (dest : Option Nat) : World α :=
  let w1 : World α := match (w this)._dest with
    | some old => w.update old (fun o => { o with _followers := o._followers.erase this })
    | none => w
  let w2 : World α := w1.update this (fun o => { o with _dest := dest })
  let w3 : World α := match dest with
    | some d =>
      let wa := w2.update d (fun o => { o with _followers := o._followers ++ [this] })
      let wb := wa.update this (fun o => { o with _distMax := getDistance wa this d })
      wb.update this (fun o => { o with _distCurrent := ofInt 0 })
    | none =>
      let wa := w2.update this (fun o => { o with _distCurrent := ofInt 0 })
      wa.update this (fun o => { o with _distMax := o._distCurrent })
  calculateSpeed w3 this

/-- `MovingTarget::setSpeed` (`MovingTarget.cpp:123`):
`_radianSpeed = _speed * (1 / 60.0) * (M_PI / 180) / 720.0`. -/
def setSpeed [DoubleOps α] (w : World α) (this : Nat) (speed : Int) : World α :=
  let w1 := w.update this (fun o => { o with _speed := speed })
  let w2 := w1.update this (fun o =>
    { o with _radianSpeed := div (mul (mul (ofInt o._speed) (div (ofInt 1) (ofInt 60))) (div pi (ofInt 180))) (ofInt 720) })
  calculateSpeed w2 this

/-- `MovingTarget::finishedRoute`: `_distCurrent >= _distMax`. -/
def finishedRoute [DoubleOps α] (w : World α) (this : Nat) : Bool :=
  ge (w this)._distCurrent (w this)._distMax

/-- `MovingTarget::reachedDestination` (`MovingTarget.cpp:180`). -/
def reachedDestination [DoubleOps α] (w : World α) (this : Nat) : Bool :=
  match (w this)._dest with
  | none => false
  | some d => eq (w this)._lon (getLongitude w d) && eq (w this)._lat (getLatitude w d)

/-- `MovingTarget::move` (`MovingTarget.cpp:192`). -/
def move [DoubleOps α] (w : World α) (this : Nat) : World α :=
  let w1 := setLongitude w this (add (w this)._lon (w this)._speedLon)
  let w2 := setLatitude w1 this (add (w1 this)._lat (w1 this)._speedLat)
  w2.update this (fun o => { o with _distCurrent := add o._distCurrent o._radianSpeed })

/-- A call made by the surrounding program on the object at an address. -/
inductive Op (α : Type) where
  | setDestination (this : Nat) (dest : Option Nat)
  | setSpeed (this : Nat) (speed : Int)
  | move (this : Nat)
  | setLongitude (this : Nat) (lon : α)
  | setLatitude (this : Nat) (lat : α)

/-- The effect of one call on the heap. -/
def Op.apply [DoubleOps α] (w : World α) : Op α → World α
  | .setDestination this dest => OpenXcom.setDestination w this dest
  | .setSpeed this speed => OpenXcom.setSpeed w this speed
  | .move this => OpenXcom.move w this
  | .setLongitude this lon => OpenXcom.setLongitude w this lon
  | .setLatitude this lat => OpenXcom.setLatitude w this lat

/-- Runs a sequence of calls, first call first. -/
def run [DoubleOps α] (w : World α) (ops : List (Op α)) : World α :=
  ops.foldl Op.apply w

/-- The heaps the program can be in: those obtained from freshly constructed
objects by a sequence of calls. -/
def Reachable [DoubleOps α] (w : World α) : Prop :=
  ∃ ops : List (Op α), w = run World.fresh ops

/-- Idealised `double`: a real number, or `nan` for a non-finite result.  Rounding
and overflow are not modelled, and the infinity that IEEE arithmetic gives for a
nonzero number divided by zero is not told apart from NaN. -/
inductive IdealDouble where
  | fin (x : ℝ)
  | nan

/-- Exact real arithmetic on `IdealDouble`.  `nan` propagates through every
operation and compares false with everything; a division by zero, `acos` of an
argument outside `[-1, 1]` and `sqrt` of a negative number give `nan`. -/
noncomputable instance : DoubleOps IdealDouble where
  ofInt k := .fin (k : ℝ)
  pi := .fin Real.pi
  add x y := match x, y with
    | .fin a, .fin b => .fin (a + b)
    | _, _ => .nan
  sub x y := match x, y with
    | .fin a, .fin b => .fin (a - b)
    | _, _ => .nan
  mul x y := match x, y with
    | .fin a, .fin b => .fin (a * b)
    | _, _ => .nan
  div x y := match x, y with
    | .fin a, .fin b => if b = 0 then .nan else .fin (a / b)
    | _, _ => .nan
  sin x := match x with
    | .fin a => .fin (Real.sin a)
    | .nan => .nan
  cos x := match x with
    | .fin a => .fin (Real.cos a)
    | .nan => .nan
  acos x := match x with
    | .fin a => if -1 ≤ a ∧ a ≤ 1 then .fin (Real.arccos a) else .nan
    | .nan => .nan
  sqrt x := match x with
    | .fin a => if 0 ≤ a then .fin (Real.sqrt a) else .nan
    | .nan => .nan
  ge x y := match x, y with
    | .fin a, .fin b => decide (b ≤ a)
    | _, _ => false
  eq x y := match x, y with
    | .fin a, .fin b => decide (a = b)
    | _, _ => false

/-- The local `dLon` of `calculateSpeed`, for the object `this` heading to `d`. -/
def dLon [DoubleOps α] (w : World α) (this d : Nat) : α :=
  mul (sin (sub (getLongitude w d) (w this)._lon)) (cos (getLatitude w d))

/-- The local `dLat` of `calculateSpeed`, for the object `this` heading to `d`. -/
def dLat [DoubleOps α] (w : World α) (this d : Nat) : α :=
  sub (mul (cos (w this)._lat) (sin (getLatitude w d)))
    (mul (mul (sin (w this)._lat) (cos (getLatitude w d)))
      (cos (sub (getLongitude w d) (w this)._lon)))

/-- The local `length` of `calculateSpeed`, for the object `this` heading to `d`. -/
def length [DoubleOps α] (w : World α) (this d : Nat) : α :=
  sqrt (add (mul (dLon w this d) (dLon w this d)) (mul (dLat w this d) (dLat w this d)))

/-- The heap after `n` consecutive `move()` calls on `this`. -/
def moves [DoubleOps α] (w : World α) (this : Nat) (n : Nat) : World α :=
  run w (List.replicate n (Op.move this))

/-- The route scenario of the spec (section 8): object `1` sits at the blank
position `(0, 0)` with angular speed `a`, object `2` at longitude `0` and
latitude `lat`; nothing else has happened yet. -/
def routeScenario [DoubleOps α] (lat a : α) : World α :=
  (setLatitude World.fresh 2 lat).update 1 (fun o => { o with _radianSpeed := a })

/-- The argument `getDistance` passes to `acos`:
`cos(_lat) * cos(tlat) * cos(tlon - _lon) + sin(_lat) * sin(tlat)`. -/
def acosArgument [DoubleOps α] (w : World α) (this target : Nat) : α :=
  add
    (mul (mul (cos (w this)._lat) (cos (getLatitude w target)))
      (cos (sub (getLongitude w target) (w this)._lon)))
    (mul (sin (w this)._lat) (sin (getLatitude w target)))

/-- The entries of the YAML node that `MovingTarget::load` reads itself. -/
structure Node (α : Type) where
  speedLon : α
  speedLat : α
  speed : Int

/-- `MovingTarget::load` (`MovingTarget.cpp:41`).  `Target::load` is not among the
sources: its effect on the base-class fields is the parameter `targetLoad`.  The
three assignments that follow write `_speedLon`, `_speedLat` and `_speed`, and
nothing else. -/
def load (targetLoad : Target α → Target α) (w : World α) (this : Nat) (node : Node α) :
    World α :=
  let w1 := w.update this (fun o => { o with toTarget := targetLoad o.toTarget })
  let w2 := w1.update this (fun o => { o with _speedLon := node.speedLon })
  let w3 := w2.update this (fun o => { o with _speedLat := node.speedLat })
  w3.update this (fun o => { o with _speed := node.speed })

/-- `MovingTarget::~MovingTarget` (`MovingTarget.cpp:33`): the body is empty, so
the destructor writes to no object of the heap.  Modelled from the spec: the base
destructor `~Target` does no follower bookkeeping either. -/
def destructor (w : World α) (_this : Nat) : World α := w

/-- A destination relocated after it was set: object `1` gets `setSpeed(knots)`,
object `2` is put at longitude `lon`, `1.setDestination(2)` is called, and then
object `2` is moved to latitude `lat`. -/
def relocatedScenario [DoubleOps α] (lon lat : α) (knots : Int) : World α :=
  run World.fresh
    [.setSpeed 1 knots, .setLongitude 2 lon, .setDestination 1 (some 2), .setLatitude 2 lat]

/-- A route along the zero meridian: object `2` is put at latitude `lat`, object
`1` gets `setSpeed(knots)` and `setDestination(2)`. -/
def meridianScenario [DoubleOps α] (lat : α) (knots : Int) : World α :=
  run World.fresh [.setLatitude 2 lat, .setSpeed 1 knots, .setDestination 1 (some 2)]

/-- Rounding of a real to an integer: to the nearest, a tie to the even one. -/
noncomputable def roundNearestEven (q : ℝ) : ℤ :=
  if q - ⌊q⌋ < 1 / 2 then ⌊q⌋
  else if 1 / 2 < q - ⌊q⌋ then ⌊q⌋ + 1
  else if Even ⌊q⌋ then ⌊q⌋ else ⌊q⌋ + 1

/-- The rounding of IEEE 754 binary64 arithmetic in its default mode: the real `x`
is replaced by the nearest number with a 53-bit significand, a tie going to the
even significand.  The exponent range is not bounded (no overflow, no subnormal
numbers). -/
noncomputable def roundDouble (x : ℝ) : ℝ :=
  if x = 0 then 0
  else (roundNearestEven (x / (2 : ℝ) ^ (Int.log 2 |x| - 52)) : ℝ) * (2 : ℝ) ^ (Int.log 2 |x| - 52)

/-- A `double` as the machine holds it: a finite value, given by the real number
it stands for, or `nan` for a non-finite one (NaN and the infinities are not told
apart, nor are the two zeros). -/
inductive Binary64 where
  | fin (x : ℝ)
  | nan

/-- Double arithmetic with rounding: every operation returns the exact result
rounded by `roundDouble`; the library functions `sin`, `cos`, `acos`, `sqrt` are
taken to be correctly rounded; `M_PI` is the double `884279719003555 / 2^48`;
`nan` propagates and compares false; a division by zero, `acos` outside
`[-1, 1]` and `sqrt` of a negative number give `nan`. -/
noncomputable instance : DoubleOps Binary64 where
  ofInt k := .fin (roundDouble (k : ℝ))
  pi := .fin (884279719003555 / 2 ^ 48)
  add x y := match x, y with
    | .fin a, .fin b => .fin (roundDouble (a + b))
    | _, _ => .nan
  sub x y := match x, y with
    | .fin a, .fin b => .fin (roundDouble (a - b))
    | _, _ => .nan
  mul x y := match x, y with
    | .fin a, .fin b => .fin (roundDouble (a * b))
    | _, _ => .nan
  div x y := match x, y with
    | .fin a, .fin b => if b = 0 then .nan else .fin (roundDouble (a / b))
    | _, _ => .nan
  sin x := match x with
    | .fin a => .fin (roundDouble (Real.sin a))
    | .nan => .nan
  cos x := match x with
    | .fin a => .fin (roundDouble (Real.cos a))
    | .nan => .nan
  acos x := match x with
    | .fin a => if -1 ≤ a ∧ a ≤ 1 then .fin (roundDouble (Real.arccos a)) else .nan
    | .nan => .nan
  sqrt x := match x with
    | .fin a => if 0 ≤ a then .fin (roundDouble (Real.sqrt a)) else .nan
    | .nan => .nan
  ge x y := match x, y with
    | .fin a, .fin b => decide (b ≤ a)
    | _, _ => false
  eq x y := match x, y with
    | .fin a, .fin b => decide (a = b)
    | _, _ => false

/-- The value of `x += a` executed `n` times. -/
def addTimes [DoubleOps α] (x a : α) : Nat → α
  | 0 => x
  | n + 1 => add (addTimes x a n) a

/-- Two targets at the same position: objects `1` and `2` are both put at
latitude `lat`, on the zero meridian. -/
def colocatedScenario [DoubleOps α] (lat : α) : World α :=
  run World.fresh [.setLatitude 1 lat, .setLatitude 2 lat]

/-- Single membership: `m` is listed by `T` once if `T` is the destination of
`m`, and not at all otherwise. -/
def FollowerInv (w : World α) : Prop :=
  ∀ m T : Nat, (w T)._followers.count m = if (w m)._dest = some T then 1 else 0

/-- Without a destination the velocity and the route length are zero. -/
def IdleInv [DoubleOps α] (w : World α) : Prop :=
  ∀ m : Nat, (w m)._dest = none →
    (w m)._speedLon = ofInt 0 ∧ (w m)._speedLat = ofInt 0 ∧ (w m)._distMax = ofInt 0

/-! ## Heap lemmas -/

@[simp] theorem update_same (w : World α) (p : Nat) (f : MovingTarget α → MovingTarget α) :
    (w.update p f) p = f (w p) := by
  simp [World.update]

theorem update_apply (w : World α) (p q : Nat) (f : MovingTarget α → MovingTarget α) :
    (w.update p f) q = if q = p then f (w q) else w q := rfl

/-- The fields `calculateSpeed` leaves alone: everything but the two velocity
components of `this`. -/
theorem calculateSpeed_frame [DoubleOps α] (w : World α) (this q : Nat) :
    (calculateSpeed w this q).toTarget = (w q).toTarget ∧
    (calculateSpeed w this q)._dest = (w q)._dest ∧
    (calculateSpeed w this q)._radianSpeed = (w q)._radianSpeed ∧
    (calculateSpeed w this q)._distCurrent = (w q)._distCurrent ∧
    (calculateSpeed w this q)._distMax = (w q)._distMax ∧
    (calculateSpeed w this q)._speed = (w q)._speed := by
  unfold calculateSpeed
  cases (w this)._dest <;> by_cases h : q = this <;> simp [update_apply, h]

@[simp] theorem calculateSpeed_followers [DoubleOps α] (w : World α) (this q : Nat) :
    (calculateSpeed w this q)._followers = (w q)._followers :=
  congrArg Target._followers (calculateSpeed_frame w this q).1

@[simp] theorem calculateSpeed_lon [DoubleOps α] (w : World α) (this q : Nat) :
    (calculateSpeed w this q)._lon = (w q)._lon :=
  congrArg Target._lon (calculateSpeed_frame w this q).1

@[simp] theorem calculateSpeed_lat [DoubleOps α] (w : World α) (this q : Nat) :
    (calculateSpeed w this q)._lat = (w q)._lat :=
  congrArg Target._lat (calculateSpeed_frame w this q).1

@[simp] theorem calculateSpeed_dest [DoubleOps α] (w : World α) (this q : Nat) :
    (calculateSpeed w this q)._dest = (w q)._dest :=
  (calculateSpeed_frame w this q).2.1

@[simp] theorem calculateSpeed_radianSpeed [DoubleOps α] (w : World α) (this q : Nat) :
    (calculateSpeed w this q)._radianSpeed = (w q)._radianSpeed :=
  (calculateSpeed_frame w this q).2.2.1

@[simp] theorem calculateSpeed_distCurrent [DoubleOps α] (w : World α) (this q : Nat) :
    (calculateSpeed w this q)._distCurrent = (w q)._distCurrent :=
  (calculateSpeed_frame w this q).2.2.2.1

@[simp] theorem calculateSpeed_distMax [DoubleOps α] (w : World α) (this q : Nat) :
    (calculateSpeed w this q)._distMax = (w q)._distMax :=
  (calculateSpeed_frame w this q).2.2.2.2.1

@[simp] theorem calculateSpeed_speed [DoubleOps α] (w : World α) (this q : Nat) :
    (calculateSpeed w this q)._speed = (w q)._speed :=
  (calculateSpeed_frame w this q).2.2.2.2.2

/-- The velocity of an object other than `this` is not touched. -/
theorem calculateSpeed_other [DoubleOps α] (w : World α) (this q : Nat) (h : q ≠ this) :
    calculateSpeed w this q = w q := by
  unfold calculateSpeed
  cases (w this)._dest <;> simp [update_apply, h]

/-- Followers of every target after `setDestination`: `this` is erased from the
old destination's list, then appended to the new destination's list. -/
theorem setDestination_followers [DoubleOps α] (w : World α) (this : Nat) (dest : Option Nat)
    (T : Nat) :
    (setDestination w this dest T)._followers =
      (if (w this)._dest = some T then (w T)._followers.erase this else (w T)._followers) ++
        (if dest = some T then [this] else []) := by
  unfold setDestination
  rw [calculateSpeed_followers]
  cases hd : (w this)._dest <;> cases dest <;> simp only [update_apply] <;>
    split_ifs <;> subst_vars <;> simp_all

/-- The destination of every object after `setDestination`. -/
theorem setDestination_dest [DoubleOps α] (w : World α) (this : Nat) (dest : Option Nat)
    (m : Nat) :
    (setDestination w this dest m)._dest = if m = this then dest else (w m)._dest := by
  unfold setDestination
  rw [calculateSpeed_dest]
  cases hd : (w this)._dest <;> cases dest <;> simp only [update_apply] <;>
    split_ifs <;> subst_vars <;> simp_all

/-- The fields `setSpeed` leaves alone. -/
theorem setSpeed_frame [DoubleOps α] (w : World α) (this : Nat) (speed : Int) (q : Nat) :
    (setSpeed w this speed q).toTarget = (w q).toTarget ∧
    (setSpeed w this speed q)._dest = (w q)._dest ∧
    (setSpeed w this speed q)._distCurrent = (w q)._distCurrent ∧
    (setSpeed w this speed q)._distMax = (w q)._distMax := by
  unfold setSpeed
  refine ⟨?_, ?_, ?_, ?_⟩
  · rw [(calculateSpeed_frame _ this q).1]
    simp only [update_apply]; split_ifs <;> rfl
  · rw [calculateSpeed_dest]
    simp only [update_apply]; split_ifs <;> rfl
  · rw [calculateSpeed_distCurrent]
    simp only [update_apply]; split_ifs <;> rfl
  · rw [calculateSpeed_distMax]
    simp only [update_apply]; split_ifs <;> rfl

/-- The fields `move` leaves alone. -/
theorem move_frame [DoubleOps α] (w : World α) (this q : Nat) :
    (move w this q)._followers = (w q)._followers ∧
    (move w this q)._dest = (w q)._dest ∧
    (move w this q)._speedLon = (w q)._speedLon ∧
    (move w this q)._speedLat = (w q)._speedLat ∧
    (move w this q)._radianSpeed = (w q)._radianSpeed ∧
    (move w this q)._distMax = (w q)._distMax ∧
    (move w this q)._speed = (w q)._speed := by
  unfold move setLatitude setLongitude
  simp only [update_apply]
  split_ifs <;> simp

/-- The fields `setLongitude` leaves alone. -/
theorem setLongitude_frame (w : World α) (p : Nat) (x : α) (q : Nat) :
    (setLongitude w p x q)._lat = (w q)._lat ∧
    (setLongitude w p x q)._followers = (w q)._followers ∧
    (setLongitude w p x q)._dest = (w q)._dest ∧
    (setLongitude w p x q)._speedLon = (w q)._speedLon ∧
    (setLongitude w p x q)._speedLat = (w q)._speedLat ∧
    (setLongitude w p x q)._radianSpeed = (w q)._radianSpeed ∧
    (setLongitude w p x q)._distCurrent = (w q)._distCurrent ∧
    (setLongitude w p x q)._distMax = (w q)._distMax ∧
    (setLongitude w p x q)._speed = (w q)._speed := by
  unfold setLongitude
  simp only [update_apply]
  split_ifs <;> simp

/-- The fields `setLatitude` leaves alone. -/
theorem setLatitude_frame (w : World α) (p : Nat) (x : α) (q : Nat) :
    (setLatitude w p x q)._lon = (w q)._lon ∧
    (setLatitude w p x q)._followers = (w q)._followers ∧
    (setLatitude w p x q)._dest = (w q)._dest ∧
    (setLatitude w p x q)._speedLon = (w q)._speedLon ∧
    (setLatitude w p x q)._speedLat = (w q)._speedLat ∧
    (setLatitude w p x q)._radianSpeed = (w q)._radianSpeed ∧
    (setLatitude w p x q)._distCurrent = (w q)._distCurrent ∧
    (setLatitude w p x q)._distMax = (w q)._distMax ∧
    (setLatitude w p x q)._speed = (w q)._speed := by
  unfold setLatitude
  simp only [update_apply]
  split_ifs <;> simp

/-- Every call other than `setDestination` leaves follower lists and
destinations as they are. -/
theorem apply_followers_dest [DoubleOps α] (w : World α) (op : Op α)
    (h : ∀ p d, op ≠ .setDestination p d) (q : Nat) :
    (op.apply w q)._followers = (w q)._followers ∧ (op.apply w q)._dest = (w q)._dest := by
  cases op with
  | setDestination p d => exact absurd rfl (h p d)
  | setSpeed p k =>
    exact ⟨congrArg Target._followers (setSpeed_frame w p k q).1, (setSpeed_frame w p k q).2.1⟩
  | move p => exact ⟨(move_frame w p q).1, (move_frame w p q).2.1⟩
  | setLongitude p x => exact ⟨(setLongitude_frame w p x q).2.1, (setLongitude_frame w p x q).2.2.1⟩
  | setLatitude p x => exact ⟨(setLatitude_frame w p x q).2.1, (setLatitude_frame w p x q).2.2.1⟩

/-! ## The follower relation -/

theorem followerInv_fresh [DoubleOps α] : FollowerInv (World.fresh : World α) := by
  intro m T
  simp [World.fresh, MovingTarget.new]

theorem followerInv_setDestination [DoubleOps α] {w : World α} (h : FollowerInv w)
    (this : Nat) (dest : Option Nat) : FollowerInv (setDestination w this dest) := by
  intro m T
  rw [setDestination_followers, setDestination_dest, List.count_append]
  have hmT := h m T
  by_cases hm : m = this
  · subst hm
    have h0 : List.count m
        (if (w m)._dest = some T then (w T)._followers.erase m else (w T)._followers) = 0 := by
      split_ifs with h1
      · rw [List.count_erase_self, hmT, if_pos h1]
      · rw [hmT, if_neg h1]
    rw [h0, if_pos rfl]
    split_ifs <;> simp
  · have h0 : List.count m
        (if (w this)._dest = some T then (w T)._followers.erase this else (w T)._followers) =
        List.count m (w T)._followers := by
      split_ifs
      · exact List.count_erase_of_ne hm _
      · rfl
    have h1 : List.count m (if dest = some T then [this] else []) = 0 := by
      split_ifs
      · exact List.count_eq_zero.mpr (by simpa using hm)
      · rfl
    rw [h0, h1, if_neg hm, hmT, Nat.add_zero]

theorem followerInv_apply [DoubleOps α] {w : World α} (h : FollowerInv w) (op : Op α) :
    FollowerInv (op.apply w) := by
  by_cases hop : ∃ p d, op = .setDestination p d
  · obtain ⟨p, d, rfl⟩ := hop
    exact followerInv_setDestination h p d
  · have hne : ∀ p d, op ≠ .setDestination p d := fun p d e => hop ⟨p, d, e⟩
    intro m T
    rw [(apply_followers_dest w op hne T).1, (apply_followers_dest w op hne m).2]
    exact h m T

theorem followerInv_run [DoubleOps α] (ops : List (Op α)) {w : World α} (h : FollowerInv w) :
    FollowerInv (run w ops) := by
  induction ops generalizing w with
  | nil => exact h
  | cons op ops ih => exact ih (followerInv_apply h op)

theorem reachable_followerInv [DoubleOps α] {w : World α} (h : Reachable w) : FollowerInv w := by
  obtain ⟨ops, rfl⟩ := h
  exact followerInv_run ops followerInv_fresh

theorem reachable_apply [DoubleOps α] {w : World α} (h : Reachable w) (op : Op α) :
    Reachable (op.apply w) := by
  obtain ⟨ops, rfl⟩ := h
  exact ⟨ops ++ [op], by simp [OpenXcom.run, List.foldl_append]⟩

/-! ## Effect of the calls on the `MovingTarget` fields -/

/-- Without a destination `calculateSpeed` zeroes both velocity components. -/
theorem calculateSpeed_none [DoubleOps α] (w : World α) (this : Nat)
    (h : (w this)._dest = none) :
    (calculateSpeed w this this)._speedLon = ofInt 0 ∧
    (calculateSpeed w this this)._speedLat = ofInt 0 := by
  unfold calculateSpeed
  rw [h]
  simp [update_apply]

/-- The velocity `calculateSpeed` stores when there is a destination. -/
theorem calculateSpeed_some [DoubleOps α] (w : World α) (this d : Nat)
    (h : (w this)._dest = some d) :
    (calculateSpeed w this this)._speedLon =
      div (mul (div (dLon w this d) (length w this d)) (w this)._radianSpeed)
        (cos (add (w this)._lat (w this)._speedLat)) ∧
    (calculateSpeed w this this)._speedLat =
      mul (div (dLat w this d) (length w this d)) (w this)._radianSpeed := by
  unfold calculateSpeed
  rw [h]
  simp [update_apply, dLon, dLat, length]

/-- The locals of `calculateSpeed` read nothing but the two positions. -/
theorem bearing_congr [DoubleOps α] (w w' : World α) (a b : Nat)
    (h : ∀ q, (w' q)._lon = (w q)._lon ∧ (w' q)._lat = (w q)._lat) :
    dLon w' a b = dLon w a b ∧ dLat w' a b = dLat w a b ∧ length w' a b = length w a b := by
  unfold length dLon dLat getLongitude getLatitude
  rw [(h a).1, (h a).2, (h b).1, (h b).2]
  exact ⟨rfl, rfl, rfl⟩

/-- `getDistance` reads nothing but the two positions. -/
theorem getDistance_congr [DoubleOps α] (w w' : World α) (a b : Nat)
    (h : ∀ q, (w' q)._lon = (w q)._lon ∧ (w' q)._lat = (w q)._lat) :
    getDistance w' a b = getDistance w a b := by
  unfold getDistance getLongitude getLatitude
  rw [(h a).1, (h a).2, (h b).1, (h b).2]

/-- The fields of any object `setDestination` leaves alone. -/
theorem setDestination_frame [DoubleOps α] (w : World α) (this : Nat) (dest : Option Nat)
    (q : Nat) :
    (setDestination w this dest q)._lon = (w q)._lon ∧
    (setDestination w this dest q)._lat = (w q)._lat ∧
    (setDestination w this dest q)._radianSpeed = (w q)._radianSpeed ∧
    (setDestination w this dest q)._speed = (w q)._speed := by
  unfold setDestination
  rw [calculateSpeed_lon, calculateSpeed_lat, calculateSpeed_radianSpeed, calculateSpeed_speed]
  cases hd : (w this)._dest <;> cases dest <;> simp only [update_apply] <;>
    split_ifs <;> subst_vars <;> simp_all

/-- On an object other than the caller, `setDestination` changes the follower
list only. -/
theorem setDestination_other [DoubleOps α] (w : World α) (this : Nat) (dest : Option Nat)
    (q : Nat) (h : q ≠ this) :
    (setDestination w this dest q)._speedLon = (w q)._speedLon ∧
    (setDestination w this dest q)._speedLat = (w q)._speedLat ∧
    (setDestination w this dest q)._distCurrent = (w q)._distCurrent ∧
    (setDestination w this dest q)._distMax = (w q)._distMax := by
  unfold setDestination
  rw [calculateSpeed_other _ _ _ h]
  cases hd : (w this)._dest <;> cases dest <;> simp only [update_apply] <;>
    split_ifs <;> subst_vars <;> simp_all

/-- Clearing the destination zeroes the velocity and both distances of the caller. -/
theorem setDestination_none_fields [DoubleOps α] (w : World α) (this : Nat) :
    (setDestination w this none this)._speedLon = ofInt 0 ∧
    (setDestination w this none this)._speedLat = ofInt 0 ∧
    (setDestination w this none this)._distMax = ofInt 0 ∧
    (setDestination w this none this)._distCurrent = ofInt 0 := by
  have hd := setDestination_dest w this none this
  rw [if_pos rfl] at hd
  unfold setDestination at hd ⊢
  rw [calculateSpeed_dest] at hd
  refine ⟨(calculateSpeed_none _ this hd).1, (calculateSpeed_none _ this hd).2, ?_, ?_⟩
  · rw [calculateSpeed_distMax]
    simp [update_apply]
  · rw [calculateSpeed_distCurrent]
    simp [update_apply]

/-- Setting a destination resets the travelled distance and measures the route
from the positions as they are at the call. -/
theorem setDestination_some_fields [DoubleOps α] (w : World α) (this d : Nat) :
    (setDestination w this (some d) this)._distCurrent = ofInt 0 ∧
    (setDestination w this (some d) this)._distMax = getDistance w this d := by
  unfold setDestination
  rw [calculateSpeed_distCurrent, calculateSpeed_distMax]
  refine ⟨by simp [update_apply], ?_⟩
  simp only [update_same]
  apply getDistance_congr
  intro q
  cases hd : (w this)._dest <;> simp only [update_apply] <;>
    split_ifs <;> subst_vars <;> simp_all

/-- On an object other than the caller `setSpeed` changes nothing. -/
theorem setSpeed_other [DoubleOps α] (w : World α) (this : Nat) (speed : Int) (q : Nat)
    (h : q ≠ this) : setSpeed w this speed q = w q := by
  unfold setSpeed
  rw [calculateSpeed_other _ _ _ h]
  simp [update_apply, h]

/-- The speed and angular speed `setSpeed` stores in the caller. -/
theorem setSpeed_fields [DoubleOps α] (w : World α) (this : Nat) (speed : Int) :
    (setSpeed w this speed this)._speed = speed ∧
    (setSpeed w this speed this)._radianSpeed =
      div (mul (mul (ofInt speed) (div (ofInt 1) (ofInt 60))) (div pi (ofInt 180))) (ofInt 720) := by
  unfold setSpeed
  rw [calculateSpeed_speed, calculateSpeed_radianSpeed]
  simp [update_apply]

/-- What `move` does to the caller. -/
theorem move_fields [DoubleOps α] (w : World α) (this : Nat) :
    (move w this this)._lon = add (w this)._lon (w this)._speedLon ∧
    (move w this this)._lat = add (w this)._lat (w this)._speedLat ∧
    (move w this this)._distCurrent = add (w this)._distCurrent (w this)._radianSpeed := by
  unfold move setLatitude setLongitude
  simp [update_apply]

/-- On an object other than the caller `move` changes nothing. -/
theorem move_other [DoubleOps α] (w : World α) (this q : Nat) (h : q ≠ this) :
    move w this q = w q := by
  unfold move setLatitude setLongitude
  simp [update_apply, h]

/-- A call that is not `m.setDestination(..)` leaves the route length of `m` alone. -/
theorem apply_distMax [DoubleOps α] (w : World α) (op : Op α) (m : Nat)
    (h : ∀ d, op ≠ .setDestination m d) :
    (op.apply w m)._distMax = (w m)._distMax := by
  cases op with
  | setDestination p d =>
    have hne : m ≠ p := fun e => h d (by rw [e])
    exact (setDestination_other w p d m hne).2.2.2
  | setSpeed p k => exact (setSpeed_frame w p k m).2.2.2
  | move p => exact (move_frame w p m).2.2.2.2.2.1
  | setLongitude p x => exact (setLongitude_frame w p x m).2.2.2.2.2.2.2.1
  | setLatitude p x => exact (setLatitude_frame w p x m).2.2.2.2.2.2.2.1

theorem run_distMax [DoubleOps α] (ops : List (Op α)) (w : World α) (m : Nat)
    (h : ∀ d, Op.setDestination m d ∉ ops) :
    (run w ops m)._distMax = (w m)._distMax := by
  induction ops generalizing w with
  | nil => rfl
  | cons op ops ih =>
    have h1 : ∀ d, op ≠ .setDestination m d := fun d e => h d (by simp [e])
    have h2 : ∀ d, Op.setDestination m d ∉ ops := fun d hmem => h d (List.mem_cons_of_mem _ hmem)
    show (run (op.apply w) ops m)._distMax = _
    rw [ih _ h2, apply_distMax w op m h1]

/-- A call that is not `m.setSpeed(..)` leaves the speed and angular speed of `m` alone. -/
theorem apply_speed [DoubleOps α] (w : World α) (op : Op α) (m : Nat)
    (h : ∀ k, op ≠ .setSpeed m k) :
    (op.apply w m)._speed = (w m)._speed ∧ (op.apply w m)._radianSpeed = (w m)._radianSpeed := by
  cases op with
  | setDestination p d =>
    exact ⟨(setDestination_frame w p d m).2.2.2, (setDestination_frame w p d m).2.2.1⟩
  | setSpeed p k =>
    have hne : m ≠ p := fun e => h k (by rw [e])
    show (setSpeed w p k m)._speed = _ ∧ (setSpeed w p k m)._radianSpeed = _
    rw [setSpeed_other w p k m hne]
    exact ⟨rfl, rfl⟩
  | move p => exact ⟨(move_frame w p m).2.2.2.2.2.2, (move_frame w p m).2.2.2.2.1⟩
  | setLongitude p x =>
    exact ⟨(setLongitude_frame w p x m).2.2.2.2.2.2.2.2, (setLongitude_frame w p x m).2.2.2.2.2.1⟩
  | setLatitude p x =>
    exact ⟨(setLatitude_frame w p x m).2.2.2.2.2.2.2.2, (setLatitude_frame w p x m).2.2.2.2.2.1⟩

/-- C1: in every heap reachable from freshly constructed objects, after
`m.setDestination(T)` the follower list of `T` contains `m` exactly once, and a
second `m.setDestination(T)` in a row leaves `m` there exactly once. -/
theorem setDestination_registers_once [DoubleOps α] (w : World α) (h : Reachable w)
    (m T : Nat) :
    (getFollowers (setDestination w m (some T)) T).count m = 1 ∧
    (getFollowers (setDestination (setDestination w m (some T)) m (some T)) T).count m = 1 := by
  have h1 : FollowerInv (setDestination w m (some T)) :=
    followerInv_setDestination (reachable_followerInv h) m (some T)
  have h2 := followerInv_setDestination h1 m (some T)
  constructor
  · have e := h1 m T
    rw [setDestination_dest, if_pos rfl, if_pos rfl] at e
    exact e
  · have e := h2 m T
    rw [setDestination_dest, if_pos rfl, if_pos rfl] at e
    exact e

theorem setDestination_registers_once_witness :
    Reachable (run (World.fresh : World IdealDouble) [.setDestination 1 (some 3), .move 1]) ∧
    (getFollowers (setDestination
      (run (World.fresh : World IdealDouble) [.setDestination 1 (some 3), .move 1])
      1 (some 2)) 2).count 1 = 1 :=
  ⟨⟨_, rfl⟩, (setDestination_registers_once _ ⟨_, rfl⟩ 1 2).1⟩

/-- C2: in every reachable heap in which the destination of `m` is `T`,
`m.setDestination(none)` leaves `T` without the follower `m`, sets the destination
of `m` to none, and sets both velocity components, `distanceTotal` and
`distanceTraveled` of `m` to zero. -/
theorem setDestination_none_deregisters [DoubleOps α] (w : World α) (h : Reachable w)
    (m T : Nat) (hd : getDestination w m = some T) :
    m ∈ getFollowers w T ∧
    m ∉ getFollowers (setDestination w m none) T ∧
    getDestination (setDestination w m none) m = none ∧
    (setDestination w m none m)._speedLon = ofInt 0 ∧
    (setDestination w m none m)._speedLat = ofInt 0 ∧
    (setDestination w m none m)._distMax = ofInt 0 ∧
    (setDestination w m none m)._distCurrent = ofInt 0 := by
  have hdest : (setDestination w m none m)._dest = none := by
    rw [setDestination_dest, if_pos rfl]
  have e := followerInv_setDestination (reachable_followerInv h) m none m T
  rw [hdest] at e
  have e0 := reachable_followerInv h m T
  rw [show (w m)._dest = some T from hd, if_pos rfl] at e0
  refine ⟨?_, ?_, hdest, setDestination_none_fields w m⟩
  · exact List.count_pos_iff.mp (by rw [getFollowers, e0]; exact Nat.one_pos)
  · exact List.count_eq_zero.mp (by simpa using e)

theorem setDestination_none_deregisters_witness :
    getDestination (run (World.fresh : World IdealDouble) [.setDestination 1 (some 2)]) 1 = some 2 ∧
    1 ∉ getFollowers (setDestination
      (run (World.fresh : World IdealDouble) [.setDestination 1 (some 2)]) 1 none) 2 :=
  have hd : getDestination
      (run (World.fresh : World IdealDouble) [.setDestination 1 (some 2)]) 1 = some 2 := by
    show (setDestination World.fresh 1 (some 2) 1)._dest = some 2
    rw [setDestination_dest, if_pos rfl]
  ⟨hd, (setDestination_none_deregisters _ ⟨_, rfl⟩ 1 2 hd).2.1⟩

/-- C3: from any state of `m`, after `m.setDestination(T2)` the travelled
distance is zero and `distanceTotal` is `getDistance` from the position of `m` to
the position of `T2` as they are at the call; no later call other than a
`setDestination` on `m` (any `move`, `setSpeed`, change of a position, or call on
another object) changes `distanceTotal`. -/
theorem setDestination_snapshots_distance [DoubleOps α] (w : World α) (m T2 : Nat)
    (ops : List (Op α)) (hops : ∀ d, Op.setDestination m d ∉ ops) :
    (setDestination w m (some T2) m)._distCurrent = ofInt 0 ∧
    (setDestination w m (some T2) m)._distMax = getDistance w m T2 ∧
    (run (setDestination w m (some T2)) ops m)._distMax = getDistance w m T2 := by
  refine ⟨(setDestination_some_fields w m T2).1, (setDestination_some_fields w m T2).2, ?_⟩
  rw [run_distMax ops _ m hops]
  exact (setDestination_some_fields w m T2).2

theorem setDestination_snapshots_distance_witness :
    (∀ d, Op.setDestination 1 d ∉
      [Op.move 1, Op.setSpeed 1 7, Op.move 2, Op.setLatitude 2 (IdealDouble.fin 1)]) ∧
    (run (setDestination (World.fresh : World IdealDouble) 1 (some 2))
      [Op.move 1, Op.setSpeed 1 7, Op.move 2, Op.setLatitude 2 (IdealDouble.fin 1)] 1)._distMax =
      getDistance (World.fresh : World IdealDouble) 1 2 :=
  have hops : ∀ d, Op.setDestination 1 d ∉
      [Op.move 1, Op.setSpeed 1 7, Op.move 2, Op.setLatitude 2 (IdealDouble.fin 1)] := by
    intro d hmem
    simp at hmem
  ⟨hops, (setDestination_snapshots_distance _ 1 2 _ hops).2.2⟩

/-- C4: `setDestination(T)` puts the caller at the end of the follower list of
`T` (after erasing its old entry when `T` already was its destination); when
neither `a` nor `b` has `T` as destination, `a` then `b` registering turns the
list `l` into `l ++ [a, b]`, and clearing the destination of `a` then leaves
`l ++ [b]`; in general `a.setDestination(none)` removes the one entry `a` from the
list of its destination and keeps all other entries in their order. -/
theorem setDestination_follower_order [DoubleOps α] (w : World α) (h : Reachable w)
    (a b T : Nat) (hab : a ≠ b) :
    getFollowers (setDestination w a (some T)) T =
      (if getDestination w a = some T then (getFollowers w T).erase a else getFollowers w T)
        ++ [a] ∧
    (getDestination w a ≠ some T → getDestination w b ≠ some T →
      getFollowers (setDestination (setDestination w a (some T)) b (some T)) T =
          getFollowers w T ++ [a, b] ∧
      (getFollowers (setDestination (setDestination w a (some T)) b (some T)) T).length =
          (getFollowers w T).length + 2 ∧
      getFollowers (setDestination
          (setDestination (setDestination w a (some T)) b (some T)) a none) T =
          getFollowers w T ++ [b]) ∧
    (getDestination w a = some T →
      ∃ l1 l2, getFollowers w T = l1 ++ a :: l2 ∧ a ∉ l1 ∧ a ∉ l2 ∧
        getFollowers (setDestination w a none) T = l1 ++ l2 ∧
        (getFollowers (setDestination w a none) T).length + 1 = (getFollowers w T).length) := by
  unfold getFollowers getDestination
  refine ⟨?_, ?_, ?_⟩
  · rw [setDestination_followers, if_pos rfl]
  · intro ha hb
    have hcount := reachable_followerInv h a T
    rw [if_neg ha] at hcount
    have hnot : a ∉ (w T)._followers := List.count_eq_zero.mp hcount
    have hb1 : (setDestination w a (some T) b)._dest ≠ some T := by
      rw [setDestination_dest, if_neg (Ne.symm hab)]
      exact hb
    have e2 : (setDestination (setDestination w a (some T)) b (some T) T)._followers =
        (w T)._followers ++ [a, b] := by
      rw [setDestination_followers, if_neg hb1, if_pos rfl, setDestination_followers,
        if_neg ha, if_pos rfl]
      simp
    have ha2 : (setDestination (setDestination w a (some T)) b (some T) a)._dest = some T := by
      rw [setDestination_dest, if_neg hab, setDestination_dest, if_pos rfl]
    refine ⟨e2, by rw [e2]; simp, ?_⟩
    rw [setDestination_followers, if_pos ha2, e2, if_neg (by simp)]
    rw [List.erase_append_right _ hnot]
    simp
  · intro ha
    have hcount := reachable_followerInv h a T
    rw [if_pos ha] at hcount
    have hmem : a ∈ (w T)._followers :=
      List.count_pos_iff.mp (by rw [hcount]; exact Nat.one_pos)
    obtain ⟨l1, l2, hl1, hl, herase⟩ := List.exists_erase_eq hmem
    refine ⟨l1, l2, hl, hl1, ?_, ?_, ?_⟩
    · rw [hl] at hcount
      have h0 : List.count a l1 = 0 := List.count_eq_zero.mpr hl1
      rw [List.count_append, List.count_cons_self, h0] at hcount
      exact List.count_eq_zero.mp (by omega)
    · rw [setDestination_followers, if_pos ha, herase, if_neg (by simp)]
      simp
    · rw [setDestination_followers, if_pos ha, herase, if_neg (by simp), hl]
      simp
      omega

theorem setDestination_follower_order_witness :
    (1 : Nat) ≠ 2 ∧ Reachable (World.fresh : World IdealDouble) ∧
    getFollowers (setDestination (setDestination (World.fresh : World IdealDouble) 1 (some 3))
      2 (some 3)) 3 = getFollowers (World.fresh : World IdealDouble) 3 ++ [1, 2] :=
  ⟨by decide, ⟨[], rfl⟩,
    ((setDestination_follower_order (World.fresh : World IdealDouble) ⟨[], rfl⟩ 1 2 3
      (by decide)).2.1
      (by simp [getDestination, World.fresh, MovingTarget.new])
      (by simp [getDestination, World.fresh, MovingTarget.new])).1⟩

/-! ## Arithmetic of `IdealDouble` -/

@[simp] theorem ideal_ofInt (k : Int) : (ofInt k : IdealDouble) = .fin (k : ℝ) := rfl

@[simp] theorem ideal_pi : (pi : IdealDouble) = .fin Real.pi := rfl

@[simp] theorem ideal_add (a b : ℝ) : add (IdealDouble.fin a) (.fin b) = .fin (a + b) := rfl

@[simp] theorem ideal_sub (a b : ℝ) : sub (IdealDouble.fin a) (.fin b) = .fin (a - b) := rfl

@[simp] theorem ideal_mul (a b : ℝ) : mul (IdealDouble.fin a) (.fin b) = .fin (a * b) := rfl

theorem ideal_div (a b : ℝ) :
    div (IdealDouble.fin a) (.fin b) = if b = 0 then .nan else .fin (a / b) := rfl

@[simp] theorem ideal_div_zero (a : ℝ) : div (IdealDouble.fin a) (.fin 0) = .nan := by
  rw [ideal_div, if_pos rfl]

theorem ideal_div_of_ne (a b : ℝ) (h : b ≠ 0) :
    div (IdealDouble.fin a) (.fin b) = .fin (a / b) := by
  rw [ideal_div, if_neg h]

@[simp] theorem ideal_sin (a : ℝ) : sin (IdealDouble.fin a) = .fin (Real.sin a) := rfl

@[simp] theorem ideal_cos (a : ℝ) : cos (IdealDouble.fin a) = .fin (Real.cos a) := rfl

theorem ideal_acos (a : ℝ) :
    acos (IdealDouble.fin a) = if -1 ≤ a ∧ a ≤ 1 then .fin (Real.arccos a) else .nan := rfl

theorem ideal_sqrt (a : ℝ) :
    sqrt (IdealDouble.fin a) = if 0 ≤ a then .fin (Real.sqrt a) else .nan := rfl

@[simp] theorem ideal_ge (a b : ℝ) : ge (IdealDouble.fin a) (.fin b) = decide (b ≤ a) := rfl

@[simp] theorem ideal_eq (a b : ℝ) : DoubleOps.eq (IdealDouble.fin a) (.fin b) = decide (a = b) :=
  rfl

@[simp] theorem ideal_add_nan (x : IdealDouble) : add x IdealDouble.nan = .nan := by
  cases x <;> rfl

@[simp] theorem ideal_nan_add (x : IdealDouble) : add IdealDouble.nan x = .nan := rfl

@[simp] theorem ideal_nan_mul (x : IdealDouble) : mul IdealDouble.nan x = .nan := rfl

@[simp] theorem ideal_nan_div (x : IdealDouble) : div IdealDouble.nan x = .nan := rfl

/-! ## Velocity after `setDestination` and `setSpeed` -/

/-- The velocity stored by `calculateSpeed`, read off a heap `w` that agrees with
the current one on positions and on the old `_speedLat` of `this`. -/
theorem calculateSpeed_some_of [DoubleOps α] (w w3 : World α) (this d : Nat)
    (hd : (w3 this)._dest = some d)
    (hpos : ∀ q, (w3 q)._lon = (w q)._lon ∧ (w3 q)._lat = (w q)._lat)
    (hs : (w3 this)._speedLat = (w this)._speedLat) :
    (calculateSpeed w3 this this)._speedLon =
      div (mul (div (dLon w this d) (length w this d)) (w3 this)._radianSpeed)
        (cos (add (w this)._lat (w this)._speedLat)) ∧
    (calculateSpeed w3 this this)._speedLat =
      mul (div (dLat w this d) (length w this d)) (w3 this)._radianSpeed := by
  have hb := bearing_congr w w3 this d hpos
  rw [← hb.1, ← hb.2.1, ← hb.2.2, ← (hpos this).2, ← hs]
  exact calculateSpeed_some w3 this d hd

/-- The velocity of the caller after `setDestination` to a target. -/
theorem setDestination_some_velocity [DoubleOps α] (w : World α) (this d : Nat) :
    (setDestination w this (some d) this)._speedLon =
      div (mul (div (dLon w this d) (length w this d)) (w this)._radianSpeed)
        (cos (add (w this)._lat (w this)._speedLat)) ∧
    (setDestination w this (some d) this)._speedLat =
      mul (div (dLat w this d) (length w this d)) (w this)._radianSpeed := by
  have key : ∀ w3 : World α, (w3 this)._dest = some d →
      (∀ q, (w3 q)._lon = (w q)._lon ∧ (w3 q)._lat = (w q)._lat) →
      (w3 this)._speedLat = (w this)._speedLat →
      (w3 this)._radianSpeed = (w this)._radianSpeed →
      (calculateSpeed w3 this this)._speedLon =
        div (mul (div (dLon w this d) (length w this d)) (w this)._radianSpeed)
          (cos (add (w this)._lat (w this)._speedLat)) ∧
      (calculateSpeed w3 this this)._speedLat =
        mul (div (dLat w this d) (length w this d)) (w this)._radianSpeed := by
    intro w3 h1 h2 h3 h4
    rw [← h4]
    exact calculateSpeed_some_of w w3 this d h1 h2 h3
  unfold setDestination
  apply key
  · cases hd : (w this)._dest <;> simp only [update_apply] <;>
      split_ifs <;> subst_vars <;> simp_all
  · intro q
    cases hd : (w this)._dest <;> simp only [update_apply] <;>
      split_ifs <;> subst_vars <;> simp_all
  · cases hd : (w this)._dest <;> simp only [update_apply] <;>
      split_ifs <;> subst_vars <;> simp_all
  · cases hd : (w this)._dest <;> simp only [update_apply] <;>
      split_ifs <;> subst_vars <;> simp_all

/-- Without a destination `setSpeed` stores a zero velocity. -/
theorem setSpeed_none_velocity [DoubleOps α] (w : World α) (this : Nat) (speed : Int)
    (hd : (w this)._dest = none) :
    (setSpeed w this speed this)._speedLon = ofInt 0 ∧
    (setSpeed w this speed this)._speedLat = ofInt 0 := by
  unfold setSpeed
  apply calculateSpeed_none
  simpa [update_apply] using hd

/-- The velocity of the caller after `setSpeed` while heading to a target. -/
theorem setSpeed_some_velocity [DoubleOps α] (w : World α) (this d : Nat) (speed : Int)
    (hd : (w this)._dest = some d) :
    (setSpeed w this speed this)._speedLon =
      div (mul (div (dLon w this d) (length w this d)) (setSpeed w this speed this)._radianSpeed)
        (cos (add (w this)._lat (w this)._speedLat)) ∧
    (setSpeed w this speed this)._speedLat =
      mul (div (dLat w this d) (length w this d)) (setSpeed w this speed this)._radianSpeed := by
  unfold setSpeed
  rw [calculateSpeed_radianSpeed]
  apply calculateSpeed_some_of
  · simpa [update_apply] using hd
  · intro q
    simp only [update_apply]
    split_ifs <;> simp
  · simp [update_apply]

/-- Unfolding one step of `moves`. -/
theorem moves_succ [DoubleOps α] (w : World α) (this n : Nat) :
    moves w this (n + 1) = moves (move w this) this n := by
  simp [moves, run, List.replicate_succ, Op.apply]

/-- With finite position, velocity and angular speed, `n` moves add `n` times the
velocity to the position and `n` times the angular speed to the travelled distance. -/
theorem moves_fields (n : Nat) (w : World IdealDouble) (m : Nat) (x y c a vlon vlat : ℝ)
    (hx : (w m)._lon = .fin x) (hy : (w m)._lat = .fin y)
    (hc : (w m)._distCurrent = .fin c) (ha : (w m)._radianSpeed = .fin a)
    (hvlon : (w m)._speedLon = .fin vlon) (hvlat : (w m)._speedLat = .fin vlat) :
    (moves w m n m)._lon = .fin (x + n * vlon) ∧
    (moves w m n m)._lat = .fin (y + n * vlat) ∧
    (moves w m n m)._distCurrent = .fin (c + n * a) ∧
    (moves w m n m)._distMax = (w m)._distMax := by
  induction n generalizing w x y c with
  | zero => simp [moves, run, hx, hy, hc]
  | succ n ih =>
    have hf := move_fields w m
    have hfr := move_frame w m m
    rw [hx, hvlon, ideal_add] at hf
    rw [hy, hvlat, ideal_add] at hf
    rw [hc, ha, ideal_add] at hf
    have := ih (move w m) (x + vlon) (y + vlat) (c + a) hf.1 hf.2.1 hf.2.2
      (by rw [hfr.2.2.2.2.1, ha]) (by rw [hfr.2.2.1, hvlon]) (by rw [hfr.2.2.2.1, hvlat])
    rw [moves_succ]
    refine ⟨?_, ?_, ?_, ?_⟩
    · rw [this.1]; congr 1; push_cast; ring
    · rw [this.2.1]; congr 1; push_cast; ring
    · rw [this.2.2.1]; congr 1; push_cast; ring
    · rw [this.2.2.2, hfr.2.2.2.2.2.1]

/-- The angular speed stored by `setSpeed`, in exact arithmetic. -/
theorem setSpeed_radianSpeed_ideal (w : World IdealDouble) (m : Nat) (knots : Int) :
    (setSpeed w m knots m)._radianSpeed =
      .fin ((knots : ℝ) * (1 / 60) * (Real.pi / 180) / 720) := by
  rw [(setSpeed_fields w m knots).2]
  simp only [ideal_ofInt, ideal_pi]
  rw [ideal_div_of_ne _ _ (by norm_num), ideal_div_of_ne _ _ (by norm_num), ideal_mul,
    ideal_mul, ideal_div_of_ne _ _ (by norm_num)]
  congr 1
  push_cast
  ring

/-! ## Claims on speed and movement -/

/-- Adding the finite zero changes nothing, not even a non-finite value. -/
theorem ideal_add_zero (x : IdealDouble) : add x (IdealDouble.fin 0) = x := by
  cases x with
  | fin a => rw [ideal_add, add_zero]
  | nan => rfl

/-- With a zero velocity, moves leave the position as it is. -/
theorem moves_zero_velocity (n : Nat) (w : World IdealDouble) (m : Nat)
    (hvlon : (w m)._speedLon = .fin 0) (hvlat : (w m)._speedLat = .fin 0) :
    (moves w m n m)._lon = (w m)._lon ∧ (moves w m n m)._lat = (w m)._lat := by
  induction n generalizing w with
  | zero => exact ⟨rfl, rfl⟩
  | succ n ih =>
    have hf := move_fields w m
    have hfr := move_frame w m m
    rw [hvlon, ideal_add_zero] at hf
    rw [hvlat, ideal_add_zero] at hf
    have := ih (move w m) (by rw [hfr.2.2.1, hvlon]) (by rw [hfr.2.2.2.1, hvlat])
    rw [moves_succ, this.1, this.2, hf.1, hf.2.1]
    exact ⟨rfl, rfl⟩

/-- Away from the degenerate case `setSpeed(0)` does stop the object: without a
destination, or with a destination for which `dLon`, `dLat` are finite, `length`
is finite and nonzero and `cos(_lat + _speedLat)` is finite and nonzero, the
angular speed is zero and no number of moves changes the position. -/
theorem setSpeed_zero_regular (w : World IdealDouble) (m n : Nat)
    (h : (w m)._dest = none ∨ ∃ d x y l c, (w m)._dest = some d ∧ dLon w m d = .fin x ∧
      dLat w m d = .fin y ∧ length w m d = .fin l ∧ l ≠ 0 ∧
      cos (add (w m)._lat (w m)._speedLat) = .fin c ∧ c ≠ 0) :
    (setSpeed w m 0 m)._radianSpeed = .fin 0 ∧
    (moves (setSpeed w m 0) m n m)._lon = (w m)._lon ∧
    (moves (setSpeed w m 0) m n m)._lat = (w m)._lat := by
  have hr : (setSpeed w m 0 m)._radianSpeed = .fin 0 := by
    rw [setSpeed_radianSpeed_ideal]
    simp
  have hv : (setSpeed w m 0 m)._speedLon = .fin 0 ∧ (setSpeed w m 0 m)._speedLat = .fin 0 := by
    rcases h with h | ⟨d, x, y, l, c, hd, hx, hy, hl, hl0, hc, hc0⟩
    · have := setSpeed_none_velocity w m 0 h
      simpa using this
    · have := setSpeed_some_velocity w m d 0 hd
      rw [hr, hx, hy, hl, hc, ideal_div_of_ne _ _ hl0, ideal_div_of_ne _ _ hl0, ideal_mul,
        ideal_mul, ideal_div_of_ne _ _ hc0] at this
      simpa using this
  have hm := moves_zero_velocity n (setSpeed w m 0) m hv.1 hv.2
  have hfr := (setSpeed_frame w m 0 m).1
  refine ⟨hr, ?_, ?_⟩
  · rw [hm.1]
    exact congrArg Target._lon hfr
  · rw [hm.2]
    exact congrArg Target._lat hfr

/-- C6, evaluated at the failing input: two fresh objects at the same position,
`1.setDestination(2)` then `1.setSpeed(0)`.  The angular speed is zero and the
longitude is the finite `0`, but `length` is zero, the stored `_speedLon` is the
result of `0 / 0`, and one `move()` turns the longitude into a non-finite value. -/
theorem setSpeed_zero_at_destination_then_move :
    (run (World.fresh : World IdealDouble) [.setDestination 1 (some 2), .setSpeed 1 0] 1)._radianSpeed
      = .fin 0 ∧
    (run (World.fresh : World IdealDouble) [.setDestination 1 (some 2), .setSpeed 1 0] 1)._lon
      = .fin 0 ∧
    length (run (World.fresh : World IdealDouble) [.setDestination 1 (some 2)]) 1 2 = .fin 0 ∧
    (move (run (World.fresh : World IdealDouble) [.setDestination 1 (some 2), .setSpeed 1 0]) 1
      1)._lon = .nan := by
  have hrun : run (World.fresh : World IdealDouble) [.setDestination 1 (some 2), .setSpeed 1 0] =
      setSpeed (setDestination World.fresh 1 (some 2)) 1 0 := rfl
  have hrun1 : run (World.fresh : World IdealDouble) [.setDestination 1 (some 2)] =
      setDestination World.fresh 1 (some 2) := rfl
  rw [hrun, hrun1]
  have hd : (setDestination (World.fresh : World IdealDouble) 1 (some 2) 1)._dest = some 2 := by
    rw [setDestination_dest, if_pos rfl]
  have hpos : ∀ q, (setDestination (World.fresh : World IdealDouble) 1 (some 2) q)._lon =
        ((World.fresh : World IdealDouble) q)._lon ∧
      (setDestination (World.fresh : World IdealDouble) 1 (some 2) q)._lat =
        ((World.fresh : World IdealDouble) q)._lat :=
    fun q => ⟨(setDestination_frame _ 1 (some 2) q).1, (setDestination_frame _ 1 (some 2) q).2.1⟩
  have hlen : length (setDestination (World.fresh : World IdealDouble) 1 (some 2)) 1 2 = .fin 0 := by
    rw [(bearing_congr _ _ 1 2 hpos).2.2]
    simp [length, dLon, dLat, getLongitude, getLatitude, World.fresh, MovingTarget.new, ideal_sqrt]
  have hdlon : dLon (setDestination (World.fresh : World IdealDouble) 1 (some 2)) 1 2 = .fin 0 := by
    rw [(bearing_congr _ _ 1 2 hpos).1]
    simp [dLon, getLongitude, getLatitude, World.fresh, MovingTarget.new]
  have hv := (setSpeed_some_velocity _ 1 2 0 hd).1
  rw [hlen, hdlon, ideal_div_zero, ideal_nan_mul, ideal_nan_div] at hv
  have hlon : (setSpeed (setDestination (World.fresh : World IdealDouble) 1 (some 2)) 1 0 1)._lon
      = .fin 0 := by
    rw [congrArg Target._lon (setSpeed_frame _ 1 0 1).1, (hpos 1).1]
    simp [World.fresh, MovingTarget.new]
  refine ⟨?_, hlon, hlen, ?_⟩
  · rw [(setSpeed_fields _ 1 0).2]
    simp [ideal_div_of_ne]
  · rw [(move_fields _ 1).1, hv, ideal_add_nan]

/-- Exact arithmetic: let `m` have the finite angular speed `a` and a finite position, and let
its destination be set to a target at great-circle distance `d`, which stores the
finite velocity `(vlon, vlat)`.  After `n` consecutive `move()` calls the travelled
distance is `n * a`, longitude and latitude are the starting values plus `n` times
the velocity components, and `finishedRoute()` is true iff `n * a >= d`. -/
theorem moves_after_setDestination (w : World IdealDouble) (m T : Nat)
    (a d lon0 lat0 vlon vlat : ℝ) (n : Nat)
    (ha : (w m)._radianSpeed = .fin a) (hd : getDistance w m T = .fin d)
    (hlon : (w m)._lon = .fin lon0) (hlat : (w m)._lat = .fin lat0)
    (hvlon : (setDestination w m (some T) m)._speedLon = .fin vlon)
    (hvlat : (setDestination w m (some T) m)._speedLat = .fin vlat) :
    (moves (setDestination w m (some T)) m n m)._distCurrent = .fin (n * a) ∧
    (moves (setDestination w m (some T)) m n m)._lon = .fin (lon0 + n * vlon) ∧
    (moves (setDestination w m (some T)) m n m)._lat = .fin (lat0 + n * vlat) ∧
    (finishedRoute (moves (setDestination w m (some T)) m n) m = true ↔ d ≤ n * a) := by
  have hfr := setDestination_frame w m (some T) m
  have hsome := setDestination_some_fields w m T
  have h := moves_fields n (setDestination w m (some T)) m lon0 lat0 0 a vlon vlat
    (by rw [hfr.1, hlon]) (by rw [hfr.2.1, hlat]) (by rw [hsome.1]; simp)
    (by rw [hfr.2.2.1, ha]) hvlon hvlat
  rw [zero_add] at h
  refine ⟨h.2.2.1, h.1, h.2.1, ?_⟩
  unfold finishedRoute
  rw [h.2.2.1, h.2.2.2, hsome.2, hd]
  simp

/-- Exact arithmetic, the scenario of the spec: start `(0, 0)`, destination
`(0, 0.1)`, angular speed `0.01`.  The route length is `0.1`; one move gives travelled distance `0.01`,
latitude `0.01` and longitude `0`; the latitude after `n` moves is `n * 0.01`; the
route is finished after `10` moves and not after fewer. -/
theorem moves_after_setDestination_witness :
    (setDestination (routeScenario (.fin (1 / 10)) (.fin (1 / 100)) : World IdealDouble) 1 (some 2)
      1)._distMax = .fin (1 / 10) ∧
    (moves (setDestination (routeScenario (.fin (1 / 10)) (.fin (1 / 100)) : World IdealDouble)
      1 (some 2)) 1 1 1)._distCurrent = .fin (1 / 100) ∧
    (moves (setDestination (routeScenario (.fin (1 / 10)) (.fin (1 / 100)) : World IdealDouble)
      1 (some 2)) 1 1 1)._lon = .fin 0 ∧
    (∀ n : Nat, (moves (setDestination
      (routeScenario (.fin (1 / 10)) (.fin (1 / 100)) : World IdealDouble)
      1 (some 2)) 1 n 1)._lat = .fin (n * (1 / 100))) ∧
    (∀ n : Nat, finishedRoute (moves (setDestination
      (routeScenario (.fin (1 / 10)) (.fin (1 / 100)) : World IdealDouble)
      1 (some 2)) 1 n) 1 = true ↔ 10 ≤ n) := by
  have hs : (0 : ℝ) < Real.sin (1 / 10) :=
    Real.sin_pos_of_pos_of_lt_pi (by norm_num) (by linarith [Real.pi_gt_three])
  have ha : ((routeScenario (.fin (1 / 10)) (.fin (1 / 100)) : World IdealDouble) 1)._radianSpeed
      = .fin (1 / 100) := by
    simp [routeScenario, update_apply]
  have hlon : ((routeScenario (.fin (1 / 10)) (.fin (1 / 100)) : World IdealDouble) 1)._lon
      = .fin 0 := by
    simp [routeScenario, setLatitude, update_apply, World.fresh, MovingTarget.new]
  have hlat : ((routeScenario (.fin (1 / 10)) (.fin (1 / 100)) : World IdealDouble) 1)._lat
      = .fin 0 := by
    simp [routeScenario, setLatitude, update_apply, World.fresh, MovingTarget.new]
  have hsl : ((routeScenario (.fin (1 / 10)) (.fin (1 / 100)) : World IdealDouble) 1)._speedLat
      = .fin 0 := by
    simp [routeScenario, setLatitude, update_apply, World.fresh, MovingTarget.new]
  have hlon2 : ((routeScenario (.fin (1 / 10)) (.fin (1 / 100)) : World IdealDouble) 2)._lon
      = .fin 0 := by
    simp [routeScenario, setLatitude, update_apply, World.fresh, MovingTarget.new]
  have hlat2 : ((routeScenario (.fin (1 / 10)) (.fin (1 / 100)) : World IdealDouble) 2)._lat
      = .fin (1 / 10) := by
    simp [routeScenario, setLatitude, update_apply]
  have hd : getDistance (routeScenario (.fin (1 / 10)) (.fin (1 / 100)) : World IdealDouble) 1 2
      = .fin (1 / 10) := by
    unfold getDistance getLongitude getLatitude
    rw [hlon, hlat, hlon2, hlat2]
    simp only [ideal_sub, ideal_cos, ideal_sin, ideal_mul, ideal_add, sub_self, Real.cos_zero,
      Real.sin_zero, one_mul, mul_one, zero_mul, add_zero]
    rw [ideal_acos, if_pos ⟨Real.neg_one_le_cos _, Real.cos_le_one _⟩,
      Real.arccos_cos (by norm_num) (by linarith [Real.pi_gt_three])]
  have hdLon : dLon (routeScenario (.fin (1 / 10)) (.fin (1 / 100)) : World IdealDouble) 1 2
      = .fin 0 := by
    unfold dLon getLongitude getLatitude
    rw [hlon, hlon2, hlat2]
    simp
  have hdLat : dLat (routeScenario (.fin (1 / 10)) (.fin (1 / 100)) : World IdealDouble) 1 2
      = .fin (Real.sin (1 / 10)) := by
    unfold dLat getLongitude getLatitude
    rw [hlon, hlat, hlon2, hlat2]
    simp
  have hlen : length (routeScenario (.fin (1 / 10)) (.fin (1 / 100)) : World IdealDouble) 1 2
      = .fin (Real.sin (1 / 10)) := by
    unfold length
    rw [hdLon, hdLat]
    simp only [ideal_mul, ideal_add, mul_zero, zero_add]
    rw [ideal_sqrt, if_pos (mul_self_nonneg _), Real.sqrt_mul_self hs.le]
  have hv := setDestination_some_velocity
    (routeScenario (.fin (1 / 10)) (.fin (1 / 100)) : World IdealDouble) 1 2
  rw [hdLon, hdLat, hlen, ha, hlat, hsl, ideal_div_of_ne _ _ hs.ne', ideal_div_of_ne _ _ hs.ne']
    at hv
  simp only [ideal_mul, ideal_add, ideal_cos, add_zero, Real.cos_zero, zero_div, zero_mul,
    div_self hs.ne', one_mul] at hv
  rw [ideal_div_of_ne _ _ one_ne_zero, zero_div] at hv
  have key := fun n : Nat => moves_after_setDestination
    (routeScenario (.fin (1 / 10)) (.fin (1 / 100)) : World IdealDouble) 1 2
    (1 / 100) (1 / 10) 0 0 0 (1 / 100) n ha hd hlon hlat hv.1 hv.2
  refine ⟨?_, ?_, ?_, ?_, ?_⟩
  · rw [(setDestination_some_fields _ 1 2).2, hd]
  · rw [(key 1).1]; simp
  · rw [(key 1).2.1]; simp
  · intro n
    rw [(key n).2.2.1]; simp
  · intro n
    rw [(key n).2.2.2]
    constructor
    · intro h
      have h' : (10 : ℝ) ≤ n := by linarith
      exact_mod_cast h'
    · intro h
      have h' : (10 : ℝ) ≤ n := by exact_mod_cast h
      linarith

/-- C8: `reachedDestination()` is false without a destination; with a destination
it is true exactly when the comparison `==` holds between the two longitudes and
between the two latitudes; it reads nothing but destinations and positions, so it
does not depend on `distanceTraveled` or `distanceTotal`. -/
theorem reachedDestination_spec [DoubleOps α] (w : World α) (m : Nat) :
    (getDestination w m = none → reachedDestination w m = false) ∧
    (∀ d, getDestination w m = some d →
      (reachedDestination w m = true ↔
        DoubleOps.eq (w m)._lon (getLongitude w d) = true ∧
        DoubleOps.eq (w m)._lat (getLatitude w d) = true)) ∧
    (∀ w1 : World α,
      (∀ q, (w1 q)._dest = (w q)._dest ∧ (w1 q)._lon = (w q)._lon ∧ (w1 q)._lat = (w q)._lat) →
      reachedDestination w1 m = reachedDestination w m) ∧
    (∀ x y : α, reachedDestination
      (w.update m (fun o => { o with _distCurrent := x, _distMax := y })) m =
        reachedDestination w m) := by
  have hcongr : ∀ w1 : World α,
      (∀ q, (w1 q)._dest = (w q)._dest ∧ (w1 q)._lon = (w q)._lon ∧ (w1 q)._lat = (w q)._lat) →
      reachedDestination w1 m = reachedDestination w m := by
    intro w1 h
    unfold reachedDestination getLongitude getLatitude
    rw [(h m).1, (h m).2.1, (h m).2.2]
    cases (w m)._dest with
    | none => rfl
    | some d => simp only [(h d).2.1, (h d).2.2]
  refine ⟨?_, ?_, hcongr, ?_⟩
  · intro h
    unfold reachedDestination
    rw [show (w m)._dest = none from h]
  · intro d h
    unfold reachedDestination
    rw [show (w m)._dest = some d from h]
    simp
  · intro x y
    apply hcongr
    intro q
    simp only [update_apply]
    split_ifs <;> simp

/-! ## Invariants of the reachable heaps -/

theorem idleInv_fresh [DoubleOps α] : IdleInv (World.fresh : World α) := by
  intro m _
  simp [World.fresh, MovingTarget.new]

theorem idleInv_apply [DoubleOps α] {w : World α} (h : IdleInv w) (op : Op α) :
    IdleInv (op.apply w) := by
  intro m hm
  cases op with
  | setDestination p d =>
    change (setDestination w p d m)._dest = none at hm
    show (setDestination w p d m)._speedLon = _ ∧ (setDestination w p d m)._speedLat = _ ∧
      (setDestination w p d m)._distMax = _
    rw [setDestination_dest] at hm
    by_cases hmp : m = p
    · subst hmp
      rw [if_pos rfl] at hm
      subst hm
      have hf := setDestination_none_fields w m
      exact ⟨hf.1, hf.2.1, hf.2.2.1⟩
    · rw [if_neg hmp] at hm
      have hf := setDestination_other w p d m hmp
      rw [hf.1, hf.2.1, hf.2.2.2]
      exact h m hm
  | setSpeed p k =>
    change (setSpeed w p k m)._dest = none at hm
    show (setSpeed w p k m)._speedLon = _ ∧ (setSpeed w p k m)._speedLat = _ ∧
      (setSpeed w p k m)._distMax = _
    rw [(setSpeed_frame w p k m).2.1] at hm
    by_cases hmp : m = p
    · subst hmp
      have hv := setSpeed_none_velocity w m k hm
      exact ⟨hv.1, hv.2, by rw [(setSpeed_frame w m k m).2.2.2]; exact (h m hm).2.2⟩
    · rw [setSpeed_other w p k m hmp]
      exact h m hm
  | move p =>
    change (move w p m)._dest = none at hm
    show (move w p m)._speedLon = _ ∧ (move w p m)._speedLat = _ ∧ (move w p m)._distMax = _
    have hf := move_frame w p m
    rw [hf.2.1] at hm
    rw [hf.2.2.1, hf.2.2.2.1, hf.2.2.2.2.2.1]
    exact h m hm
  | setLongitude p x =>
    change (setLongitude w p x m)._dest = none at hm
    show (setLongitude w p x m)._speedLon = _ ∧ (setLongitude w p x m)._speedLat = _ ∧
      (setLongitude w p x m)._distMax = _
    have hf := setLongitude_frame w p x m
    rw [hf.2.2.1] at hm
    rw [hf.2.2.2.1, hf.2.2.2.2.1, hf.2.2.2.2.2.2.2.1]
    exact h m hm
  | setLatitude p x =>
    change (setLatitude w p x m)._dest = none at hm
    show (setLatitude w p x m)._speedLon = _ ∧ (setLatitude w p x m)._speedLat = _ ∧
      (setLatitude w p x m)._distMax = _
    have hf := setLatitude_frame w p x m
    rw [hf.2.2.1] at hm
    rw [hf.2.2.2.1, hf.2.2.2.2.1, hf.2.2.2.2.2.2.2.1]
    exact h m hm

theorem idleInv_run [DoubleOps α] (ops : List (Op α)) {w : World α} (h : IdleInv w) :
    IdleInv (run w ops) := by
  induction ops generalizing w with
  | nil => exact h
  | cons op ops ih => exact ih (idleInv_apply h op)

/-- C9, as the claim states it, fails: a fresh object with `setSpeed(1)` and one
`move()` has no destination, yet its travelled distance is `pi / 7776000`. -/
theorem idle_distance_counterexample :
    Reachable (run (World.fresh : World IdealDouble) [.setSpeed 1 1, .move 1]) ∧
    getDestination (run (World.fresh : World IdealDouble) [.setSpeed 1 1, .move 1]) 1 = none ∧
    (run (World.fresh : World IdealDouble) [.setSpeed 1 1, .move 1] 1)._distCurrent =
      .fin (Real.pi / 7776000) ∧
    (run (World.fresh : World IdealDouble) [.setSpeed 1 1, .move 1] 1)._distCurrent ≠ ofInt 0 := by
  have hrun : run (World.fresh : World IdealDouble) [.setSpeed 1 1, .move 1] =
      move (setSpeed World.fresh 1 1) 1 := rfl
  have hdist : (run (World.fresh : World IdealDouble) [.setSpeed 1 1, .move 1] 1)._distCurrent =
      .fin (Real.pi / 7776000) := by
    rw [hrun, (move_fields _ 1).2.2, (setSpeed_frame _ 1 1 1).2.2.1,
      setSpeed_radianSpeed_ideal]
    simp [World.fresh, MovingTarget.new]
    ring
  refine ⟨⟨_, rfl⟩, ?_, hdist, ?_⟩
  · rw [hrun, getDestination, (move_frame _ 1 1).2.1, (setSpeed_frame _ 1 1 1).2.1]
    rfl
  · rw [hdist]
    simp [Real.pi_ne_zero]

/-- C9, amended: in every reachable heap an object without destination has both
velocity components and `distanceTotal` equal to zero. -/
theorem idle_velocity_and_route_zero [DoubleOps α] (w : World α) (h : Reachable w) (m : Nat)
    (hd : getDestination w m = none) :
    (w m)._speedLon = ofInt 0 ∧ (w m)._speedLat = ofInt 0 ∧ (w m)._distMax = ofInt 0 := by
  obtain ⟨ops, rfl⟩ := h
  exact idleInv_run ops idleInv_fresh m hd

theorem idle_velocity_and_route_zero_witness :
    Reachable (run (World.fresh : World IdealDouble) [.setSpeed 1 1, .move 1]) ∧
    getDestination (run (World.fresh : World IdealDouble) [.setSpeed 1 1, .move 1]) 1 = none ∧
    (run (World.fresh : World IdealDouble) [.setSpeed 1 1, .move 1] 1)._distMax = ofInt 0 :=
  have hd : getDestination
      (run (World.fresh : World IdealDouble) [.setSpeed 1 1, .move 1]) 1 = none := by
    show (move (setSpeed World.fresh 1 1) 1 1)._dest = none
    rw [(move_frame _ 1 1).2.1, (setSpeed_frame _ 1 1 1).2.1]
    rfl
  ⟨⟨_, rfl⟩, hd, (idle_velocity_and_route_zero _ ⟨_, rfl⟩ 1 hd).2.2⟩

/-- C10: in every reachable heap, `m` occurs in the follower list of `T` if and
only if the destination of `m` is `T`; hence `m` occurs in the list of at most one
target, and no follower list has a duplicate entry. -/
theorem followers_iff_destination [DoubleOps α] (w : World α) (h : Reachable w) :
    (∀ m T, m ∈ getFollowers w T ↔ getDestination w m = some T) ∧
    (∀ m T1 T2, m ∈ getFollowers w T1 → m ∈ getFollowers w T2 → T1 = T2) ∧
    (∀ T, (getFollowers w T).Nodup) := by
  have hinv := reachable_followerInv h
  have hiff : ∀ m T, m ∈ getFollowers w T ↔ getDestination w m = some T := by
    intro m T
    unfold getFollowers getDestination
    rw [← List.count_pos_iff, hinv m T]
    split_ifs with hc
    · simp [hc]
    · simp [hc]
  refine ⟨hiff, ?_, ?_⟩
  · intro m T1 T2 h1 h2
    have e1 := (hiff m T1).mp h1
    have e2 := (hiff m T2).mp h2
    rw [e1] at e2
    exact Option.some.inj e2
  · intro T
    rw [List.nodup_iff_count_le_one]
    intro m
    unfold getFollowers
    rw [hinv m T]
    split_ifs <;> omega

theorem followers_iff_destination_witness :
    Reachable (run (World.fresh : World IdealDouble)
      [.setDestination 1 (some 3), .setDestination 2 (some 3), .setDestination 1 (some 4)]) ∧
    (1 ∈ getFollowers (run (World.fresh : World IdealDouble)
      [.setDestination 1 (some 3), .setDestination 2 (some 3), .setDestination 1 (some 4)]) 3 ↔
      getDestination (run (World.fresh : World IdealDouble)
      [.setDestination 1 (some 3), .setDestination 2 (some 3), .setDestination 1 (some 4)]) 1
        = some 3) :=
  ⟨⟨_, rfl⟩, (followers_iff_destination _ ⟨_, rfl⟩).1 1 3⟩

/-! ## Claims on self-registration, loading and destruction -/

/-- C11, as the claim states it, fails: after `m.setDestination(m)` on a fresh
object the follower list of `m` is `[m]`. -/
theorem self_follower_counterexample :
    Reachable (run (World.fresh : World IdealDouble) [.setDestination 1 (some 1)]) ∧
    getFollowers (run (World.fresh : World IdealDouble) [.setDestination 1 (some 1)]) 1 = [1] ∧
    1 ∈ getFollowers (run (World.fresh : World IdealDouble) [.setDestination 1 (some 1)]) 1 := by
  have e : getFollowers (run (World.fresh : World IdealDouble) [.setDestination 1 (some 1)]) 1
      = [1] := by
    show (setDestination World.fresh 1 (some 1) 1)._followers = [1]
    rw [setDestination_followers]
    simp [World.fresh, MovingTarget.new]
  exact ⟨⟨_, rfl⟩, e, by rw [e]; exact List.mem_singleton.mpr rfl⟩

/-- C11, amended: in every reachable heap a target is in its own follower list
exactly when it is its own destination; so a target that is not its own
destination never is, and `m.setDestination(m)` leaves `m` in its own list, once. -/
theorem self_follower_iff_self_destination [DoubleOps α] (w : World α) (h : Reachable w)
    (m : Nat) :
    (m ∈ getFollowers w m ↔ getDestination w m = some m) ∧
    (getDestination w m ≠ some m → m ∉ getFollowers w m) ∧
    (getFollowers (setDestination w m (some m)) m).count m = 1 := by
  have hinv := reachable_followerInv h
  have hiff : m ∈ getFollowers w m ↔ getDestination w m = some m := by
    unfold getFollowers getDestination
    rw [← List.count_pos_iff, hinv m m]
    split_ifs with hc
    · simp [hc]
    · simp [hc]
  refine ⟨hiff, fun hne hmem => hne (hiff.mp hmem), ?_⟩
  have e := followerInv_setDestination hinv m (some m) m m
  rw [setDestination_dest, if_pos rfl, if_pos rfl] at e
  exact e

theorem self_follower_iff_self_destination_witness :
    Reachable (run (World.fresh : World IdealDouble) [.setDestination 1 (some 2)]) ∧
    (getDestination (run (World.fresh : World IdealDouble) [.setDestination 1 (some 2)]) 1
        ≠ some 1 →
      1 ∉ getFollowers (run (World.fresh : World IdealDouble) [.setDestination 1 (some 2)]) 1) :=
  ⟨⟨_, rfl⟩, (self_follower_iff_self_destination _ ⟨_, rfl⟩ 1).2.1⟩

/-! ## Spherical trigonometry behind `getDistance` and `calculateSpeed` -/

/-- The squares of `dLon`, `dLat` and of the `acos` argument add up to one. -/
theorem bearing_sq_identity (a b δ : ℝ) :
    (Real.sin δ * Real.cos b) ^ 2 +
      (Real.cos a * Real.sin b - Real.sin a * Real.cos b * Real.cos δ) ^ 2 =
    1 - (Real.cos a * Real.cos b * Real.cos δ + Real.sin a * Real.sin b) ^ 2 := by
  have ha := Real.sin_sq_add_cos_sq a
  have hb := Real.sin_sq_add_cos_sq b
  have hδ := Real.sin_sq_add_cos_sq δ
  linear_combination
    (Real.sin b ^ 2 + Real.cos b ^ 2 * Real.cos δ ^ 2) * ha + Real.cos b ^ 2 * hδ + hb

/-- The `acos` argument of `getDistance` is a cosine: it lies in `[-1, 1]`. -/
theorem acosArgument_range (a b δ : ℝ) :
    -1 ≤ Real.cos a * Real.cos b * Real.cos δ + Real.sin a * Real.sin b ∧
    Real.cos a * Real.cos b * Real.cos δ + Real.sin a * Real.sin b ≤ 1 := by
  have h := bearing_sq_identity a b δ
  have h1 := sq_nonneg (Real.sin δ * Real.cos b)
  have h2 := sq_nonneg (Real.cos a * Real.sin b - Real.sin a * Real.cos b * Real.cos δ)
  constructor <;> nlinarith

/-- The `acos` argument at finite positions. -/
theorem acosArgument_fin (w : World IdealDouble) (m d : Nat) (lon1 lat1 lon2 lat2 : ℝ)
    (h1 : (w m)._lon = .fin lon1) (h2 : (w m)._lat = .fin lat1)
    (h3 : (w d)._lon = .fin lon2) (h4 : (w d)._lat = .fin lat2) :
    acosArgument w m d = .fin (Real.cos lat1 * Real.cos lat2 * Real.cos (lon2 - lon1) +
      Real.sin lat1 * Real.sin lat2) := by
  unfold acosArgument getLongitude getLatitude
  rw [h1, h2, h3, h4]
  rfl

/-- `getDistance` is `acos` of `acosArgument`. -/
theorem getDistance_eq_acos [DoubleOps α] (w : World α) (m d : Nat) :
    getDistance w m d = acos (acosArgument w m d) := rfl

/-- `getDistance` at finite positions: the argument is in range, so `acos` is
defined. -/
theorem getDistance_fin (w : World IdealDouble) (m d : Nat) (lon1 lat1 lon2 lat2 : ℝ)
    (h1 : (w m)._lon = .fin lon1) (h2 : (w m)._lat = .fin lat1)
    (h3 : (w d)._lon = .fin lon2) (h4 : (w d)._lat = .fin lat2) :
    getDistance w m d = .fin (Real.arccos (Real.cos lat1 * Real.cos lat2 * Real.cos (lon2 - lon1) +
      Real.sin lat1 * Real.sin lat2)) := by
  rw [getDistance_eq_acos, acosArgument_fin w m d lon1 lat1 lon2 lat2 h1 h2 h3 h4, ideal_acos,
    if_pos (acosArgument_range lat1 lat2 (lon2 - lon1))]

/-- The locals `dLon`, `dLat`, `length` of `calculateSpeed` at finite positions. -/
theorem bearing_fin (w : World IdealDouble) (m d : Nat) (lon1 lat1 lon2 lat2 : ℝ)
    (h1 : (w m)._lon = .fin lon1) (h2 : (w m)._lat = .fin lat1)
    (h3 : (w d)._lon = .fin lon2) (h4 : (w d)._lat = .fin lat2) :
    dLon w m d = .fin (Real.sin (lon2 - lon1) * Real.cos lat2) ∧
    dLat w m d = .fin (Real.cos lat1 * Real.sin lat2 -
      Real.sin lat1 * Real.cos lat2 * Real.cos (lon2 - lon1)) ∧
    length w m d = .fin (Real.sqrt
      ((Real.sin (lon2 - lon1) * Real.cos lat2) ^ 2 +
        (Real.cos lat1 * Real.sin lat2 -
          Real.sin lat1 * Real.cos lat2 * Real.cos (lon2 - lon1)) ^ 2)) := by
  have hx : dLon w m d = .fin (Real.sin (lon2 - lon1) * Real.cos lat2) := by
    unfold dLon getLongitude getLatitude
    rw [h1, h3, h4]
    rfl
  have hy : dLat w m d = .fin (Real.cos lat1 * Real.sin lat2 -
      Real.sin lat1 * Real.cos lat2 * Real.cos (lon2 - lon1)) := by
    unfold dLat getLongitude getLatitude
    rw [h1, h2, h3, h4]
    rfl
  refine ⟨hx, hy, ?_⟩
  unfold length
  rw [hx, hy, ideal_mul, ideal_mul, ideal_add, ideal_sqrt,
    if_pos (add_nonneg (mul_self_nonneg _) (mul_self_nonneg _))]
  congr 2
  ring

/-- Positions in the route scenario: object `1` at `(0, 0)`, object `2` at
`(0, lat)`. -/
theorem routeScenario_positions (lat a : ℝ) :
    ((routeScenario (.fin lat) (.fin a) : World IdealDouble) 1)._lon = .fin 0 ∧
    ((routeScenario (.fin lat) (.fin a) : World IdealDouble) 1)._lat = .fin 0 ∧
    ((routeScenario (.fin lat) (.fin a) : World IdealDouble) 2)._lon = .fin 0 ∧
    ((routeScenario (.fin lat) (.fin a) : World IdealDouble) 2)._lat = .fin lat := by
  refine ⟨?_, ?_, ?_, ?_⟩ <;>
    simp [routeScenario, setLatitude, update_apply, World.fresh, MovingTarget.new]

/-! ## The great-circle distance in exact arithmetic -/

/-- Exact arithmetic: for finite positions of `a` and `b`, `getDistance` from `a` to `b` equals
`getDistance` from `b` to `a`, and the result is a number in `[0, pi]`. -/
theorem getDistance_symmetric_range (w : World IdealDouble) (a b : Nat)
    (lon1 lat1 lon2 lat2 : ℝ)
    (h1 : (w a)._lon = .fin lon1) (h2 : (w a)._lat = .fin lat1)
    (h3 : (w b)._lon = .fin lon2) (h4 : (w b)._lat = .fin lat2) :
    getDistance w a b = getDistance w b a ∧
    ∃ d : ℝ, getDistance w a b = .fin d ∧ 0 ≤ d ∧ d ≤ Real.pi := by
  have hab := getDistance_fin w a b lon1 lat1 lon2 lat2 h1 h2 h3 h4
  have hba := getDistance_fin w b a lon2 lat2 lon1 lat1 h3 h4 h1 h2
  refine ⟨?_, _, hab, Real.arccos_nonneg _, Real.arccos_le_pi _⟩
  rw [hab, hba]
  congr 2
  rw [show lon1 - lon2 = -(lon2 - lon1) by ring, Real.cos_neg]
  ring

/-- Exact arithmetic: when `m` and `T` are at the same finite position `(lon, lat)`,
`getDistance` from `m` to `T` is `0`, and `m.setDestination(T)` stores
`distanceTotal = 0`. -/
theorem getDistance_colocated (w : World IdealDouble) (m T : Nat) (lon lat : ℝ)
    (h1 : (w m)._lon = .fin lon) (h2 : (w m)._lat = .fin lat)
    (h3 : (w T)._lon = .fin lon) (h4 : (w T)._lat = .fin lat) :
    getDistance w m T = .fin 0 ∧ (setDestination w m (some T) m)._distMax = .fin 0 := by
  have hd : getDistance w m T = .fin 0 := by
    rw [getDistance_fin w m T lon lat lon lat h1 h2 h3 h4]
    congr 1
    rw [Real.arccos_eq_zero, sub_self, Real.cos_zero, mul_one]
    have := Real.sin_sq_add_cos_sq lat
    nlinarith
  exact ⟨hd, by rw [(setDestination_some_fields w m T).2, hd]⟩

/-- Exact arithmetic: for finite positions the value `getDistance` passes to `acos` is a
number `c` in `[-1, 1]`, so the result of `getDistance` is `acos` of `c` clamped
into `[-1, 1]` (the clamp changes nothing). -/
theorem getDistance_acos_argument_in_range (w : World IdealDouble) (a b : Nat)
    (lon1 lat1 lon2 lat2 : ℝ)
    (h1 : (w a)._lon = .fin lon1) (h2 : (w a)._lat = .fin lat1)
    (h3 : (w b)._lon = .fin lon2) (h4 : (w b)._lat = .fin lat2) :
    ∃ c : ℝ, acosArgument w a b = .fin c ∧ -1 ≤ c ∧ c ≤ 1 ∧
      max (-1) (min 1 c) = c ∧
      getDistance w a b = acos (IdealDouble.fin (max (-1) (min 1 c))) ∧
      getDistance w a b = .fin (Real.arccos c) := by
  have hc := acosArgument_fin w a b lon1 lat1 lon2 lat2 h1 h2 h3 h4
  have hr := acosArgument_range lat1 lat2 (lon2 - lon1)
  have hclamp : max (-1) (min 1 (Real.cos lat1 * Real.cos lat2 * Real.cos (lon2 - lon1) +
      Real.sin lat1 * Real.sin lat2)) =
      Real.cos lat1 * Real.cos lat2 * Real.cos (lon2 - lon1) + Real.sin lat1 * Real.sin lat2 := by
    rw [min_eq_right hr.2, max_eq_right hr.1]
  refine ⟨_, hc, hr.1, hr.2, hclamp, ?_, getDistance_fin w a b lon1 lat1 lon2 lat2 h1 h2 h3 h4⟩
  rw [hclamp, getDistance_eq_acos, hc]

/-- Exact arithmetic: for finite positions, with `c` the argument `getDistance` passes to
`acos`: `dLon^2 + dLat^2 = 1 - c^2`, the `length` of `calculateSpeed` is the sine
of `getDistance`, and `length` is zero exactly when `getDistance` is `0` or `pi`. -/
theorem length_eq_sin_distance (w : World IdealDouble) (m d : Nat) (lon1 lat1 lon2 lat2 : ℝ)
    (h1 : (w m)._lon = .fin lon1) (h2 : (w m)._lat = .fin lat1)
    (h3 : (w d)._lon = .fin lon2) (h4 : (w d)._lat = .fin lat2) :
    ∃ x y c dist : ℝ, dLon w m d = .fin x ∧ dLat w m d = .fin y ∧
      acosArgument w m d = .fin c ∧ getDistance w m d = .fin dist ∧
      x ^ 2 + y ^ 2 = 1 - c ^ 2 ∧
      length w m d = .fin (Real.sin dist) ∧
      (length w m d = .fin 0 ↔ dist = 0 ∨ dist = Real.pi) := by
  have hb := bearing_fin w m d lon1 lat1 lon2 lat2 h1 h2 h3 h4
  have hc := acosArgument_fin w m d lon1 lat1 lon2 lat2 h1 h2 h3 h4
  have hd := getDistance_fin w m d lon1 lat1 lon2 lat2 h1 h2 h3 h4
  have hid := bearing_sq_identity lat1 lat2 (lon2 - lon1)
  have hlen : length w m d = .fin (Real.sin (Real.arccos
      (Real.cos lat1 * Real.cos lat2 * Real.cos (lon2 - lon1) + Real.sin lat1 * Real.sin lat2))) := by
    rw [hb.2.2, Real.sin_arccos, hid]
  refine ⟨_, _, _, _, hb.1, hb.2.1, hc, hd, hid, hlen, ?_⟩
  rw [hlen]
  have h0 := Real.arccos_nonneg
    (Real.cos lat1 * Real.cos lat2 * Real.cos (lon2 - lon1) + Real.sin lat1 * Real.sin lat2)
  have hpi := Real.arccos_le_pi
    (Real.cos lat1 * Real.cos lat2 * Real.cos (lon2 - lon1) + Real.sin lat1 * Real.sin lat2)
  constructor
  · intro h
    have hs : Real.sin (Real.arccos (Real.cos lat1 * Real.cos lat2 * Real.cos (lon2 - lon1) +
        Real.sin lat1 * Real.sin lat2)) = 0 := IdealDouble.fin.inj h
    rcases hpi.lt_or_eq with hlt | heq
    · left
      exact (Real.sin_eq_zero_iff_of_lt_of_lt (by linarith [Real.pi_pos]) hlt).mp hs
    · right
      exact heq
  · rintro (h | h)
    · rw [h, Real.sin_zero]
    · rw [h, Real.sin_pi]

/-! ## Loading, destruction and the degenerate direction -/

/-- Without `load`, the angular speed always is the one `setSpeed` derives from
the stored speed: in every reachable heap `_radianSpeed = _speed * pi / 7776000`,
so a nonnegative speed has a nonnegative angular speed. -/
theorem reachable_radianSpeed (w : World IdealDouble) (h : Reachable w) (m : Nat) :
    (w m)._radianSpeed = .fin (((w m)._speed : ℝ) * Real.pi / 7776000) ∧
    (0 ≤ (w m)._speed → ∃ r : ℝ, (w m)._radianSpeed = .fin r ∧ 0 ≤ r) := by
  have key : ∀ (ops : List (Op IdealDouble)) (w0 : World IdealDouble),
      (w0 m)._radianSpeed = .fin (((w0 m)._speed : ℝ) * Real.pi / 7776000) →
      (run w0 ops m)._radianSpeed = .fin (((run w0 ops m)._speed : ℝ) * Real.pi / 7776000) := by
    intro ops
    induction ops with
    | nil => intro w0 h0; exact h0
    | cons op ops ih =>
      intro w0 h0
      apply ih (op.apply w0)
      by_cases hop : ∃ k, op = .setSpeed m k
      · obtain ⟨k, rfl⟩ := hop
        show (setSpeed w0 m k m)._radianSpeed = .fin (((setSpeed w0 m k m)._speed : ℝ) * _ / _)
        rw [setSpeed_radianSpeed_ideal, (setSpeed_fields w0 m k).1]
        congr 1
        ring
      · have hne : ∀ k, op ≠ .setSpeed m k := fun k e => hop ⟨k, e⟩
        rw [(apply_speed w0 op m hne).1, (apply_speed w0 op m hne).2]
        exact h0
  obtain ⟨ops, rfl⟩ := h
  have hr := key ops World.fresh (by simp [World.fresh, MovingTarget.new])
  refine ⟨hr, fun hs => ⟨_, hr, ?_⟩⟩
  have : (0 : ℝ) ≤ ((run World.fresh ops m)._speed : ℝ) := by exact_mod_cast hs
  positivity

/-- What `load` leaves in the caller: the speed of the node, the old angular speed. -/
theorem load_fields (targetLoad : Target α → Target α) (w : World α) (this : Nat)
    (node : Node α) :
    (load targetLoad w this node this)._speed = node.speed ∧
    (load targetLoad w this node this)._speedLon = node.speedLon ∧
    (load targetLoad w this node this)._speedLat = node.speedLat ∧
    (load targetLoad w this node this)._radianSpeed = (w this)._radianSpeed ∧
    (load targetLoad w this node this)._dest = (w this)._dest := by
  unfold load
  simp [update_apply]

/-- C14, evaluated at the failing input: a fresh object, `setSpeed(-1)`, then
`load` of a node with `speed: 1`.  The speed is `1 >= 0`, the angular speed still
is the negative `-(pi / 7776000)` that `setSpeed(-1)` stored. -/
theorem load_keeps_stale_angularSpeed (targetLoad : Target IdealDouble → Target IdealDouble) :
    getSpeed (load targetLoad (setSpeed World.fresh 1 (-1)) 1 ⟨.fin 0, .fin 0, 1⟩) 1 = 1 ∧
    (load targetLoad (setSpeed World.fresh 1 (-1)) 1 ⟨.fin 0, .fin 0, 1⟩ 1)._radianSpeed =
      .fin (-(Real.pi / 7776000)) ∧
    -(Real.pi / 7776000) < 0 := by
  have hf := load_fields targetLoad (setSpeed (World.fresh : World IdealDouble) 1 (-1)) 1
    ⟨.fin 0, .fin 0, 1⟩
  refine ⟨hf.1, ?_, by linarith [Real.pi_pos]⟩
  rw [hf.2.2.2.1, setSpeed_radianSpeed_ideal]
  congr 1
  push_cast
  ring

/-- C15, evaluated at the failing input: a fresh object `1` with
`setDestination(2)` is destroyed; the follower list of `2` still is `[1]`. -/
theorem destructor_leaves_registration :
    getDestination (run (World.fresh : World IdealDouble) [.setDestination 1 (some 2)]) 1
      = some 2 ∧
    getFollowers (destructor
      (run (World.fresh : World IdealDouble) [.setDestination 1 (some 2)]) 1) 2 = [1] ∧
    1 ∈ getFollowers (destructor
      (run (World.fresh : World IdealDouble) [.setDestination 1 (some 2)]) 1) 2 := by
  have e : getFollowers (destructor
      (run (World.fresh : World IdealDouble) [.setDestination 1 (some 2)]) 1) 2 = [1] := by
    show (setDestination World.fresh 1 (some 2) 2)._followers = [1]
    rw [setDestination_followers]
    simp [World.fresh, MovingTarget.new]
  refine ⟨?_, e, by rw [e]; exact List.mem_singleton.mpr rfl⟩
  show (setDestination World.fresh 1 (some 2) 1)._dest = some 2
  rw [setDestination_dest, if_pos rfl]

/-- Division by the finite zero is not finite, whatever the numerator. -/
theorem ideal_div_by_zero (x : IdealDouble) : div x (IdealDouble.fin 0) = .nan := by
  cases x with
  | fin a => exact ideal_div_zero a
  | nan => rfl

/-- With a destination and `length` zero, `calculateSpeed` divides by zero and
stores two non-finite velocity components. -/
theorem calculateSpeed_zero_length (w : World IdealDouble) (m d : Nat)
    (hd : (w m)._dest = some d) (hl : length w m d = .fin 0) :
    (calculateSpeed w m m)._speedLon = .nan ∧ (calculateSpeed w m m)._speedLat = .nan := by
  have h := calculateSpeed_some w m d hd
  simp only [hl, ideal_div_by_zero, ideal_nan_mul, ideal_nan_div] at h
  exact h

/-- C17, evaluated at the failing input: two fresh objects at the same position.
`1.setDestination(2)` runs `calculateSpeed` with `length = 0`; both stored
velocity components are the non-finite result of `0 / 0`, not zero, and a further
`calculateSpeed()` call in that state stores the same. -/
theorem calculateSpeed_at_destination_divides_by_zero :
    length (World.fresh : World IdealDouble) 1 2 = .fin 0 ∧
    (setDestination (World.fresh : World IdealDouble) 1 (some 2) 1)._speedLon = .nan ∧
    (setDestination (World.fresh : World IdealDouble) 1 (some 2) 1)._speedLat = .nan ∧
    length (setDestination (World.fresh : World IdealDouble) 1 (some 2)) 1 2 = .fin 0 ∧
    (calculateSpeed (setDestination (World.fresh : World IdealDouble) 1 (some 2)) 1 1)._speedLon
      = .nan ∧
    (calculateSpeed (setDestination (World.fresh : World IdealDouble) 1 (some 2)) 1 1)._speedLat
      = .nan := by
  have hlen : length (World.fresh : World IdealDouble) 1 2 = .fin 0 := by
    simp [length, dLon, dLat, getLongitude, getLatitude, World.fresh, MovingTarget.new, ideal_sqrt]
  have hv := setDestination_some_velocity (World.fresh : World IdealDouble) 1 2
  simp only [hlen, ideal_div_by_zero, ideal_nan_mul, ideal_nan_div] at hv
  have hpos : ∀ q, (setDestination (World.fresh : World IdealDouble) 1 (some 2) q)._lon =
        ((World.fresh : World IdealDouble) q)._lon ∧
      (setDestination (World.fresh : World IdealDouble) 1 (some 2) q)._lat =
        ((World.fresh : World IdealDouble) q)._lat :=
    fun q => ⟨(setDestination_frame _ 1 (some 2) q).1, (setDestination_frame _ 1 (some 2) q).2.1⟩
  have hlen1 : length (setDestination (World.fresh : World IdealDouble) 1 (some 2)) 1 2
      = .fin 0 := by
    rw [(bearing_congr _ _ 1 2 hpos).2.2, hlen]
  have hd : (setDestination (World.fresh : World IdealDouble) 1 (some 2) 1)._dest = some 2 := by
    rw [setDestination_dest, if_pos rfl]
  have hc := calculateSpeed_zero_length _ 1 2 hd hlen1
  exact ⟨hlen, hv.1, hv.2, hlen1, hc.1, hc.2⟩

/-! ## Recomputing the velocity -/

/-- A second `calculateSpeed()` in a row stores the same formula, except that the
`cos` in `_speedLon` now reads the `_speedLat` stored by the first call. -/
theorem calculateSpeed_twice [DoubleOps α] (w : World α) (m d : Nat)
    (hd : (w m)._dest = some d) :
    (calculateSpeed (calculateSpeed w m) m m)._speedLon =
      div (mul (div (dLon w m d) (length w m d)) (w m)._radianSpeed)
        (cos (add (w m)._lat (calculateSpeed w m m)._speedLat)) ∧
    (calculateSpeed (calculateSpeed w m) m m)._speedLat =
      mul (div (dLat w m d) (length w m d)) (w m)._radianSpeed := by
  have h := calculateSpeed_some (calculateSpeed w m) m d (by rw [calculateSpeed_dest]; exact hd)
  have hb := bearing_congr w (calculateSpeed w m) m d
    (fun q => ⟨calculateSpeed_lon w m q, calculateSpeed_lat w m q⟩)
  rw [hb.1, hb.2.1, hb.2.2, calculateSpeed_radianSpeed, calculateSpeed_lat] at h
  exact h

/-- The velocity `calculateSpeed` stores, in exact arithmetic, when all inputs
are finite and neither divisor is zero. -/
theorem calculateSpeed_fin (w : World IdealDouble) (m d : Nat) (x y l r lat v : ℝ)
    (hd : (w m)._dest = some d)
    (hx : dLon w m d = .fin x) (hy : dLat w m d = .fin y) (hl : length w m d = .fin l)
    (hl0 : l ≠ 0) (hr : (w m)._radianSpeed = .fin r) (hlat : (w m)._lat = .fin lat)
    (hv : (w m)._speedLat = .fin v) (hc : Real.cos (lat + v) ≠ 0) :
    (calculateSpeed w m m)._speedLon = .fin (x / l * r / Real.cos (lat + v)) ∧
    (calculateSpeed w m m)._speedLat = .fin (y / l * r) := by
  have h := calculateSpeed_some w m d hd
  rw [hx, hy, hl, hr, hlat, hv, ideal_div_of_ne _ _ hl0, ideal_div_of_ne _ _ hl0, ideal_mul,
    ideal_mul, ideal_add, ideal_cos, ideal_div_of_ne _ _ hc] at h
  exact h

/-- The velocity `setDestination` stores, in exact arithmetic, when all inputs
are finite and neither divisor is zero. -/
theorem setDestination_velocity_fin (w : World IdealDouble) (m d : Nat) (x y l r lat v : ℝ)
    (hx : dLon w m d = .fin x) (hy : dLat w m d = .fin y) (hl : length w m d = .fin l)
    (hl0 : l ≠ 0) (hr : (w m)._radianSpeed = .fin r) (hlat : (w m)._lat = .fin lat)
    (hv : (w m)._speedLat = .fin v) (hc : Real.cos (lat + v) ≠ 0) :
    (setDestination w m (some d) m)._speedLon = .fin (x / l * r / Real.cos (lat + v)) ∧
    (setDestination w m (some d) m)._speedLat = .fin (y / l * r) := by
  have h := setDestination_some_velocity w m d
  rw [hx, hy, hl, hr, hlat, hv, ideal_div_of_ne _ _ hl0, ideal_div_of_ne _ _ hl0, ideal_mul,
    ideal_mul, ideal_add, ideal_cos, ideal_div_of_ne _ _ hc] at h
  exact h

/-- The state of the relocated-destination scenario with the destination first at
`(pi/2, 0)`, then at `(pi/2, pi/6)`, and `setSpeed(5184000)`: object `1` is at
`(0, 0)` heading to `2` with angular speed `2 pi / 3` and the stale `_speedLat = 0`. -/
theorem relocatedScenario_state :
    ((relocatedScenario (.fin (Real.pi / 2)) (.fin (Real.pi / 6)) 5184000 :
      World IdealDouble) 1)._dest = some 2 ∧
    ((relocatedScenario (.fin (Real.pi / 2)) (.fin (Real.pi / 6)) 5184000 :
      World IdealDouble) 1)._lon = .fin 0 ∧
    ((relocatedScenario (.fin (Real.pi / 2)) (.fin (Real.pi / 6)) 5184000 :
      World IdealDouble) 1)._lat = .fin 0 ∧
    ((relocatedScenario (.fin (Real.pi / 2)) (.fin (Real.pi / 6)) 5184000 :
      World IdealDouble) 1)._radianSpeed = .fin (2 * Real.pi / 3) ∧
    ((relocatedScenario (.fin (Real.pi / 2)) (.fin (Real.pi / 6)) 5184000 :
      World IdealDouble) 1)._speedLat = .fin 0 ∧
    ((relocatedScenario (.fin (Real.pi / 2)) (.fin (Real.pi / 6)) 5184000 :
      World IdealDouble) 2)._lon = .fin (Real.pi / 2) ∧
    ((relocatedScenario (.fin (Real.pi / 2)) (.fin (Real.pi / 6)) 5184000 :
      World IdealDouble) 2)._lat = .fin (Real.pi / 6) := by
  have hS : (relocatedScenario (.fin (Real.pi / 2)) (.fin (Real.pi / 6)) 5184000 :
      World IdealDouble) = setLatitude (setDestination (setLongitude
        (setSpeed World.fresh 1 5184000) 2 (.fin (Real.pi / 2))) 1 (some 2)) 2
        (.fin (Real.pi / 6)) := rfl
  rw [hS]
  -- after `setSpeed`
  have hAr : (setSpeed (World.fresh : World IdealDouble) 1 5184000 1)._radianSpeed
      = .fin (2 * Real.pi / 3) := by
    rw [setSpeed_radianSpeed_ideal]
    congr 1
    push_cast
    ring
  have hAt : ∀ q, (setSpeed (World.fresh : World IdealDouble) 1 5184000 q).toTarget =
      ((World.fresh : World IdealDouble) q).toTarget := fun q => (setSpeed_frame _ 1 5184000 q).1
  have hAv : (setSpeed (World.fresh : World IdealDouble) 1 5184000 1)._speedLat = .fin 0 := by
    rw [(setSpeed_none_velocity _ 1 5184000 rfl).2]
    simp
  -- after `setLongitude`
  have hB1 : setLongitude (setSpeed (World.fresh : World IdealDouble) 1 5184000) 2
      (.fin (Real.pi / 2)) 1 = setSpeed (World.fresh : World IdealDouble) 1 5184000 1 := by
    simp [setLongitude, update_apply]
  have hB1lon : (setLongitude (setSpeed (World.fresh : World IdealDouble) 1 5184000) 2
      (.fin (Real.pi / 2)) 1)._lon = .fin 0 := by
    rw [hB1, congrArg Target._lon (hAt 1)]
    simp [World.fresh, MovingTarget.new]
  have hB1lat : (setLongitude (setSpeed (World.fresh : World IdealDouble) 1 5184000) 2
      (.fin (Real.pi / 2)) 1)._lat = .fin 0 := by
    rw [hB1, congrArg Target._lat (hAt 1)]
    simp [World.fresh, MovingTarget.new]
  have hB2lon : (setLongitude (setSpeed (World.fresh : World IdealDouble) 1 5184000) 2
      (.fin (Real.pi / 2)) 2)._lon = .fin (Real.pi / 2) := by
    simp [setLongitude, update_apply]
  have hB2lat : (setLongitude (setSpeed (World.fresh : World IdealDouble) 1 5184000) 2
      (.fin (Real.pi / 2)) 2)._lat = .fin 0 := by
    rw [(setLongitude_frame _ 2 _ 2).1, congrArg Target._lat (hAt 2)]
    simp [World.fresh, MovingTarget.new]
  -- after `setDestination`
  have hb := bearing_fin _ 1 2 0 0 (Real.pi / 2) 0 hB1lon hB1lat hB2lon hB2lat
  have hx : Real.sin (Real.pi / 2 - 0) * Real.cos 0 = 1 := by simp
  have hy : Real.cos 0 * Real.sin 0 - Real.sin 0 * Real.cos 0 * Real.cos (Real.pi / 2 - 0) = 0 := by
    simp
  rw [hx, hy] at hb
  have hl : Real.sqrt ((1 : ℝ) ^ 2 + 0 ^ 2) = 1 := by norm_num
  rw [hl] at hb
  have hCv := (setDestination_velocity_fin _ 1 2 1 0 1 (2 * Real.pi / 3) 0 0 hb.1 hb.2.1 hb.2.2
    one_ne_zero (by rw [hB1]; exact hAr) hB1lat (by rw [hB1]; exact hAv) (by simp)).2
  have hCf := setDestination_frame (setLongitude (setSpeed (World.fresh : World IdealDouble)
    1 5184000) 2 (.fin (Real.pi / 2))) 1 (some 2)
  have hCd : (setDestination (setLongitude (setSpeed (World.fresh : World IdealDouble)
      1 5184000) 2 (.fin (Real.pi / 2))) 1 (some 2) 1)._dest = some 2 := by
    rw [setDestination_dest, if_pos rfl]
  -- after `setLatitude`
  have hf1 := setLatitude_frame (setDestination (setLongitude (setSpeed
    (World.fresh : World IdealDouble) 1 5184000) 2 (.fin (Real.pi / 2))) 1 (some 2)) 2
    (.fin (Real.pi / 6)) 1
  have hf2 := setLatitude_frame (setDestination (setLongitude (setSpeed
    (World.fresh : World IdealDouble) 1 5184000) 2 (.fin (Real.pi / 2))) 1 (some 2)) 2
    (.fin (Real.pi / 6)) 2
  refine ⟨?_, ?_, ?_, ?_, ?_, ?_, ?_⟩
  · rw [hf1.2.2.1, hCd]
  · rw [hf1.1, (hCf 1).1, hB1lon]
  · simp only [setLatitude, update_apply]
    rw [if_neg (by decide), (hCf 1).2.1, hB1lat]
  · rw [hf1.2.2.2.2.2.1, (hCf 1).2.2.1, hB1, hAr]
  · rw [hf1.2.2.2.2.1, hCv]
    congr 1
    simp
  · rw [hf2.1, (hCf 2).1, hB2lon]
  · simp [setLatitude, update_apply]

/-- C16, as the claim states it, fails: object `1` at `(0, 0)` with angular speed
`2 pi / 3` heads to object `2`, which was relocated to `(pi/2, pi/6)` after the
destination was set.  The first `calculateSpeed()` stores
`_speedLon = sqrt 3 * pi / 3` (dividing by `cos(0 + 0)`) and `_speedLat = pi / 3`;
the second, with nothing changed in between, divides by `cos(0 + pi/3)` and
stores `_speedLon = 2 * sqrt 3 * pi / 3`. -/
theorem calculateSpeed_twice_counterexample :
    getDestination (relocatedScenario (.fin (Real.pi / 2)) (.fin (Real.pi / 6)) 5184000 :
      World IdealDouble) 1 = some 2 ∧
    (calculateSpeed (relocatedScenario (.fin (Real.pi / 2)) (.fin (Real.pi / 6)) 5184000 :
      World IdealDouble) 1 1)._speedLon = .fin (Real.sqrt 3 * Real.pi / 3) ∧
    (calculateSpeed (calculateSpeed
      (relocatedScenario (.fin (Real.pi / 2)) (.fin (Real.pi / 6)) 5184000 :
      World IdealDouble) 1) 1 1)._speedLon = .fin (2 * Real.sqrt 3 * Real.pi / 3) ∧
    (calculateSpeed (calculateSpeed
      (relocatedScenario (.fin (Real.pi / 2)) (.fin (Real.pi / 6)) 5184000 :
      World IdealDouble) 1) 1 1)._speedLon ≠
    (calculateSpeed (relocatedScenario (.fin (Real.pi / 2)) (.fin (Real.pi / 6)) 5184000 :
      World IdealDouble) 1 1)._speedLon := by
  obtain ⟨hd, hlon, hlat, hr, hv, hlon2, hlat2⟩ := relocatedScenario_state
  have hb := bearing_fin _ 1 2 0 0 (Real.pi / 2) (Real.pi / 6) hlon hlat hlon2 hlat2
  have hx : Real.sin (Real.pi / 2 - 0) * Real.cos (Real.pi / 6) = Real.sqrt 3 / 2 := by
    rw [sub_zero, Real.sin_pi_div_two, Real.cos_pi_div_six, one_mul]
  have hy : Real.cos 0 * Real.sin (Real.pi / 6) -
      Real.sin 0 * Real.cos (Real.pi / 6) * Real.cos (Real.pi / 2 - 0) = 1 / 2 := by
    rw [Real.cos_zero, Real.sin_zero, Real.sin_pi_div_six]
    ring
  rw [hx, hy] at hb
  have hl : Real.sqrt ((Real.sqrt 3 / 2) ^ 2 + (1 / 2 : ℝ) ^ 2) = 1 := by
    have : (Real.sqrt 3 / 2) ^ 2 + (1 / 2 : ℝ) ^ 2 = 1 := by
      rw [div_pow, Real.sq_sqrt (by norm_num)]
      norm_num
    rw [this, Real.sqrt_one]
  rw [hl] at hb
  have h1 := calculateSpeed_fin _ 1 2 (Real.sqrt 3 / 2) (1 / 2) 1 (2 * Real.pi / 3) 0 0 hd
    hb.1 hb.2.1 hb.2.2 one_ne_zero hr hlat hv (by simp)
  have hlat1 : (1 / 2 : ℝ) / 1 * (2 * Real.pi / 3) = Real.pi / 3 := by ring
  have hlon1 : Real.sqrt 3 / 2 / 1 * (2 * Real.pi / 3) / Real.cos (0 + 0) =
      Real.sqrt 3 * Real.pi / 3 := by
    rw [add_zero, Real.cos_zero]
    ring
  rw [hlat1, hlon1] at h1
  have h2 := (calculateSpeed_twice _ 1 2 hd).1
  rw [hb.1, hb.2.2, hr, hlat, h1.2, ideal_div_of_ne _ _ one_ne_zero, ideal_mul, ideal_add,
    ideal_cos, zero_add, Real.cos_pi_div_three, ideal_div_of_ne _ _ (by norm_num)] at h2
  have hlon2' : Real.sqrt 3 / 2 / 1 * (2 * Real.pi / 3) / (1 / 2) =
      2 * Real.sqrt 3 * Real.pi / 3 := by ring
  rw [hlon2'] at h2
  refine ⟨hd, h1.1, h2, ?_⟩
  rw [h1.1, h2]
  intro h
  have h' : 2 * Real.sqrt 3 * Real.pi / 3 = Real.sqrt 3 * Real.pi / 3 := IdealDouble.fin.inj h
  have h3 : (0 : ℝ) < Real.sqrt 3 := Real.sqrt_pos.mpr (by norm_num)
  have h4 : 0 < Real.sqrt 3 * Real.pi := mul_pos h3 Real.pi_pos
  linarith

/-- C16, amended: in every state with a destination, a second `calculateSpeed()`
in a row stores the same `_speedLat` as the first; it stores the same `_speedLon`
when the `_speedLat` held before the first call already is the one the call
computes; and from the second call on nothing changes any more (the third call
stores what the second stored). -/
theorem calculateSpeed_twice_velocity [DoubleOps α] (w : World α) (m d : Nat)
    (hd : (w m)._dest = some d) :
    (calculateSpeed (calculateSpeed w m) m m)._speedLat = (calculateSpeed w m m)._speedLat ∧
    ((w m)._speedLat = (calculateSpeed w m m)._speedLat →
      (calculateSpeed (calculateSpeed w m) m m)._speedLon = (calculateSpeed w m m)._speedLon) ∧
    (calculateSpeed (calculateSpeed (calculateSpeed w m) m) m m)._speedLon =
      (calculateSpeed (calculateSpeed w m) m m)._speedLon ∧
    (calculateSpeed (calculateSpeed (calculateSpeed w m) m) m m)._speedLat =
      (calculateSpeed (calculateSpeed w m) m m)._speedLat := by
  have key : ∀ w0 : World α, (w0 m)._dest = some d →
      (calculateSpeed (calculateSpeed w0 m) m m)._speedLat = (calculateSpeed w0 m m)._speedLat ∧
      ((w0 m)._speedLat = (calculateSpeed w0 m m)._speedLat →
        (calculateSpeed (calculateSpeed w0 m) m m)._speedLon =
          (calculateSpeed w0 m m)._speedLon) := by
    intro w0 h0
    have h1 := calculateSpeed_some w0 m d h0
    have h2 := calculateSpeed_twice w0 m d h0
    refine ⟨by rw [h2.2, h1.2], fun hv => ?_⟩
    rw [h2.1, h1.1, ← hv]
  have hd1 : (calculateSpeed w m m)._dest = some d := by rw [calculateSpeed_dest]; exact hd
  have k0 := key w hd
  have k1 := key (calculateSpeed w m) hd1
  exact ⟨k0.1, k0.2, k1.2 k0.1.symm, k1.1⟩

theorem calculateSpeed_twice_velocity_witness :
    ((relocatedScenario (.fin (Real.pi / 2)) (.fin (Real.pi / 6)) 5184000 :
      World IdealDouble) 1)._dest = some 2 ∧
    (calculateSpeed (calculateSpeed
      (relocatedScenario (.fin (Real.pi / 2)) (.fin (Real.pi / 6)) 5184000 :
      World IdealDouble) 1) 1 1)._speedLat =
    (calculateSpeed (relocatedScenario (.fin (Real.pi / 2)) (.fin (Real.pi / 6)) 5184000 :
      World IdealDouble) 1 1)._speedLat :=
  ⟨relocatedScenario_state.1,
    (calculateSpeed_twice_velocity _ 1 2 relocatedScenario_state.1).1⟩

/-- The meridian scenario with the destination at `(0, pi/6)` and
`setSpeed(2592000)`, after one `move()`: object `1` has passed its destination and
is at `(0, pi/3)`, still with the velocity `(0, pi/3)` stored by `setDestination`. -/
theorem meridianScenario_moved_state :
    (move (meridianScenario (.fin (Real.pi / 6)) 2592000 : World IdealDouble) 1 1)._dest
      = some 2 ∧
    (move (meridianScenario (.fin (Real.pi / 6)) 2592000 : World IdealDouble) 1 1)._lon
      = .fin 0 ∧
    (move (meridianScenario (.fin (Real.pi / 6)) 2592000 : World IdealDouble) 1 1)._lat
      = .fin (Real.pi / 3) ∧
    (move (meridianScenario (.fin (Real.pi / 6)) 2592000 : World IdealDouble) 1 1)._radianSpeed
      = .fin (Real.pi / 3) ∧
    (move (meridianScenario (.fin (Real.pi / 6)) 2592000 : World IdealDouble) 1 1)._speedLon
      = .fin 0 ∧
    (move (meridianScenario (.fin (Real.pi / 6)) 2592000 : World IdealDouble) 1 1)._speedLat
      = .fin (Real.pi / 3) ∧
    (move (meridianScenario (.fin (Real.pi / 6)) 2592000 : World IdealDouble) 1 2)._lon
      = .fin 0 ∧
    (move (meridianScenario (.fin (Real.pi / 6)) 2592000 : World IdealDouble) 1 2)._lat
      = .fin (Real.pi / 6) := by
  have hS : (meridianScenario (.fin (Real.pi / 6)) 2592000 : World IdealDouble) =
      setDestination (setSpeed (setLatitude World.fresh 2 (.fin (Real.pi / 6))) 1 2592000)
        1 (some 2) := rfl
  rw [hS]
  -- after `setLatitude`
  have hA1 : setLatitude (World.fresh : World IdealDouble) 2 (.fin (Real.pi / 6)) 1
      = World.fresh 1 := by
    simp [setLatitude, update_apply]
  have hA2lon : (setLatitude (World.fresh : World IdealDouble) 2 (.fin (Real.pi / 6)) 2)._lon
      = .fin 0 := by
    rw [(setLatitude_frame _ 2 _ 2).1]
    simp [World.fresh, MovingTarget.new]
  have hA2lat : (setLatitude (World.fresh : World IdealDouble) 2 (.fin (Real.pi / 6)) 2)._lat
      = .fin (Real.pi / 6) := by
    simp [setLatitude, update_apply]
  -- after `setSpeed`
  have hBt := fun q => (setSpeed_frame
    (setLatitude (World.fresh : World IdealDouble) 2 (.fin (Real.pi / 6))) 1 2592000 q).1
  have hBr : (setSpeed (setLatitude (World.fresh : World IdealDouble) 2 (.fin (Real.pi / 6)))
      1 2592000 1)._radianSpeed = .fin (Real.pi / 3) := by
    rw [setSpeed_radianSpeed_ideal]
    congr 1
    push_cast
    ring
  have hBv : (setSpeed (setLatitude (World.fresh : World IdealDouble) 2 (.fin (Real.pi / 6)))
      1 2592000 1)._speedLat = .fin 0 := by
    rw [(setSpeed_none_velocity _ 1 2592000 (by rw [hA1]; rfl)).2]
    simp
  have hB1lon : (setSpeed (setLatitude (World.fresh : World IdealDouble) 2 (.fin (Real.pi / 6)))
      1 2592000 1)._lon = .fin 0 := by
    rw [congrArg Target._lon (hBt 1), hA1]
    simp [World.fresh, MovingTarget.new]
  have hB1lat : (setSpeed (setLatitude (World.fresh : World IdealDouble) 2 (.fin (Real.pi / 6)))
      1 2592000 1)._lat = .fin 0 := by
    rw [congrArg Target._lat (hBt 1), hA1]
    simp [World.fresh, MovingTarget.new]
  have hB2lon : (setSpeed (setLatitude (World.fresh : World IdealDouble) 2 (.fin (Real.pi / 6)))
      1 2592000 2)._lon = .fin 0 := by
    rw [congrArg Target._lon (hBt 2), hA2lon]
  have hB2lat : (setSpeed (setLatitude (World.fresh : World IdealDouble) 2 (.fin (Real.pi / 6)))
      1 2592000 2)._lat = .fin (Real.pi / 6) := by
    rw [congrArg Target._lat (hBt 2), hA2lat]
  -- after `setDestination`
  have hb := bearing_fin _ 1 2 0 0 0 (Real.pi / 6) hB1lon hB1lat hB2lon hB2lat
  have hx : Real.sin (0 - 0) * Real.cos (Real.pi / 6) = 0 := by simp
  have hy : Real.cos 0 * Real.sin (Real.pi / 6) -
      Real.sin 0 * Real.cos (Real.pi / 6) * Real.cos (0 - 0) = 1 / 2 := by
    rw [Real.cos_zero, Real.sin_zero, Real.sin_pi_div_six]
    ring
  rw [hx, hy] at hb
  have hl : Real.sqrt ((0 : ℝ) ^ 2 + (1 / 2) ^ 2) = 1 / 2 := by
    rw [show (0 : ℝ) ^ 2 + (1 / 2) ^ 2 = (1 / 2) ^ 2 by ring, Real.sqrt_sq (by norm_num)]
  rw [hl] at hb
  have hCv := setDestination_velocity_fin _ 1 2 0 (1 / 2) (1 / 2) (Real.pi / 3) 0 0
    hb.1 hb.2.1 hb.2.2 (by norm_num) hBr hB1lat hBv (by simp)
  have e1 : (0 : ℝ) / (1 / 2) * (Real.pi / 3) / Real.cos (0 + 0) = 0 := by simp
  have e2 : (1 / 2 : ℝ) / (1 / 2) * (Real.pi / 3) = Real.pi / 3 := by ring
  rw [e1, e2] at hCv
  have hCf := setDestination_frame (setSpeed (setLatitude (World.fresh : World IdealDouble) 2
    (.fin (Real.pi / 6))) 1 2592000) 1 (some 2)
  have hCd : (setDestination (setSpeed (setLatitude (World.fresh : World IdealDouble) 2
      (.fin (Real.pi / 6))) 1 2592000) 1 (some 2) 1)._dest = some 2 := by
    rw [setDestination_dest, if_pos rfl]
  -- after `move`
  have hmf := move_fields (setDestination (setSpeed (setLatitude
    (World.fresh : World IdealDouble) 2 (.fin (Real.pi / 6))) 1 2592000) 1 (some 2)) 1
  have hmfr := move_frame (setDestination (setSpeed (setLatitude
    (World.fresh : World IdealDouble) 2 (.fin (Real.pi / 6))) 1 2592000) 1 (some 2)) 1 1
  have hmo := move_other (setDestination (setSpeed (setLatitude
    (World.fresh : World IdealDouble) 2 (.fin (Real.pi / 6))) 1 2592000) 1 (some 2)) 1 2
    (by decide)
  refine ⟨?_, ?_, ?_, ?_, ?_, ?_, ?_, ?_⟩
  · rw [hmfr.2.1, hCd]
  · rw [hmf.1, (hCf 1).1, hB1lon, hCv.1, ideal_add, add_zero]
  · rw [hmf.2.1, (hCf 1).2.1, hB1lat, hCv.2, ideal_add, zero_add]
  · rw [hmfr.2.2.2.2.1, (hCf 1).2.2.1, hBr]
  · rw [hmfr.2.2.1, hCv.1]
  · rw [hmfr.2.2.2.1, hCv.2]
  · rw [hmo, (hCf 2).1, hB2lon]
  · rw [hmo, (hCf 2).2.1, hB2lat]

/-- C19, as the claim states it, fails for `move()`: in the meridian scenario
(destination at `(0, pi/6)`, angular speed `pi/3`) one `move()` takes object `1`
to `(0, pi/3)` and leaves the stored `_speedLat = pi/3`, whereas `calculateSpeed`
at the new position gives `_speedLat = -(pi/3)`. -/
theorem move_keeps_velocity_counterexample :
    (move (meridianScenario (.fin (Real.pi / 6)) 2592000 : World IdealDouble) 1 1)._lat
      = .fin (Real.pi / 3) ∧
    (move (meridianScenario (.fin (Real.pi / 6)) 2592000 : World IdealDouble) 1 1)._speedLat
      = .fin (Real.pi / 3) ∧
    (calculateSpeed (move (meridianScenario (.fin (Real.pi / 6)) 2592000 : World IdealDouble) 1)
      1 1)._speedLat = .fin (-(Real.pi / 3)) ∧
    (move (meridianScenario (.fin (Real.pi / 6)) 2592000 : World IdealDouble) 1 1)._speedLat ≠
    (calculateSpeed (move (meridianScenario (.fin (Real.pi / 6)) 2592000 : World IdealDouble) 1)
      1 1)._speedLat := by
  obtain ⟨hd, hlon, hlat, hr, _, hv, hlon2, hlat2⟩ := meridianScenario_moved_state
  have hb := bearing_fin _ 1 2 0 (Real.pi / 3) 0 (Real.pi / 6) hlon hlat hlon2 hlat2
  have hx : Real.sin (0 - 0) * Real.cos (Real.pi / 6) = 0 := by simp
  have hy : Real.cos (Real.pi / 3) * Real.sin (Real.pi / 6) -
      Real.sin (Real.pi / 3) * Real.cos (Real.pi / 6) * Real.cos (0 - 0) = -(1 / 2) := by
    have h3 : Real.sqrt 3 * Real.sqrt 3 = 3 := Real.mul_self_sqrt (by norm_num)
    rw [Real.cos_pi_div_three, Real.sin_pi_div_six, Real.sin_pi_div_three, Real.cos_pi_div_six,
      sub_self, Real.cos_zero]
    linear_combination (-1 / 4 : ℝ) * h3
  rw [hx, hy] at hb
  have hl : Real.sqrt ((0 : ℝ) ^ 2 + (-(1 / 2)) ^ 2) = 1 / 2 := by
    rw [show (0 : ℝ) ^ 2 + (-(1 / 2)) ^ 2 = (1 / 2) ^ 2 by ring, Real.sqrt_sq (by norm_num)]
  rw [hl] at hb
  have hcos : Real.cos (Real.pi / 3 + Real.pi / 3) ≠ 0 := by
    have h3 : Real.sqrt 3 * Real.sqrt 3 = 3 := Real.mul_self_sqrt (by norm_num)
    have hval : Real.cos (Real.pi / 3 + Real.pi / 3) = -(1 / 2) := by
      rw [Real.cos_add, Real.cos_pi_div_three, Real.sin_pi_div_three]
      linear_combination (-1 / 4 : ℝ) * h3
    rw [hval]
    norm_num
  have h1 := (calculateSpeed_fin _ 1 2 0 (-(1 / 2)) (1 / 2) (Real.pi / 3) (Real.pi / 3)
    (Real.pi / 3) hd hb.1 hb.2.1 hb.2.2 (by norm_num) hr hlat hv hcos).2
  rw [show -(1 / 2 : ℝ) / (1 / 2) * (Real.pi / 3) = -(Real.pi / 3) by ring] at h1
  refine ⟨hlat, hv, h1, ?_⟩
  rw [hv, h1]
  intro h
  have h' : Real.pi / 3 = -(Real.pi / 3) := IdealDouble.fin.inj h
  linarith [Real.pi_pos]

/-- C19, amended: `setDestination` and `setSpeed` recompute the velocity: with a
destination `d`, the stored components are the `calculateSpeed` formula evaluated
on the positions and angular speed of the resulting state (the `cos` reading the
latitude velocity held before the call); without a destination they are zero.
`move()` adds the velocity to the position and leaves the stored velocity
components as they are. -/
theorem velocity_recomputed_by_setters [DoubleOps α] (w : World α) (m : Nat) :
    (∀ d, (setDestination w m (some d) m)._speedLon =
        div (mul (div (dLon (setDestination w m (some d)) m d)
            (length (setDestination w m (some d)) m d))
          (setDestination w m (some d) m)._radianSpeed)
          (cos (add (setDestination w m (some d) m)._lat (w m)._speedLat)) ∧
      (setDestination w m (some d) m)._speedLat =
        mul (div (dLat (setDestination w m (some d)) m d)
            (length (setDestination w m (some d)) m d))
          (setDestination w m (some d) m)._radianSpeed) ∧
    ((setDestination w m none m)._speedLon = ofInt 0 ∧
      (setDestination w m none m)._speedLat = ofInt 0) ∧
    (∀ k d, (w m)._dest = some d →
      (setSpeed w m k m)._speedLon =
        div (mul (div (dLon (setSpeed w m k) m d) (length (setSpeed w m k) m d))
          (setSpeed w m k m)._radianSpeed)
          (cos (add (setSpeed w m k m)._lat (w m)._speedLat)) ∧
      (setSpeed w m k m)._speedLat =
        mul (div (dLat (setSpeed w m k) m d) (length (setSpeed w m k) m d))
          (setSpeed w m k m)._radianSpeed) ∧
    (∀ k, (w m)._dest = none →
      (setSpeed w m k m)._speedLon = ofInt 0 ∧ (setSpeed w m k m)._speedLat = ofInt 0) ∧
    ((move w m m)._lon = add (w m)._lon (w m)._speedLon ∧
      (move w m m)._lat = add (w m)._lat (w m)._speedLat ∧
      (move w m m)._speedLon = (w m)._speedLon ∧
      (move w m m)._speedLat = (w m)._speedLat) := by
  refine ⟨?_, ?_, ?_, ?_, ?_⟩
  · intro d
    have hf := setDestination_frame w m (some d)
    have hb := bearing_congr w (setDestination w m (some d)) m d
      (fun q => ⟨(hf q).1, (hf q).2.1⟩)
    rw [hb.1, hb.2.1, hb.2.2, (hf m).2.2.1, (hf m).2.1]
    exact setDestination_some_velocity w m d
  · exact ⟨(setDestination_none_fields w m).1, (setDestination_none_fields w m).2.1⟩
  · intro k d hd
    have hf := fun q => (setSpeed_frame w m k q).1
    have hb := bearing_congr w (setSpeed w m k) m d
      (fun q => ⟨congrArg Target._lon (hf q), congrArg Target._lat (hf q)⟩)
    rw [hb.1, hb.2.1, hb.2.2, show (setSpeed w m k m)._lat = (w m)._lat from
      congrArg Target._lat (hf m)]
    exact setSpeed_some_velocity w m d k hd
  · intro k hd
    exact setSpeed_none_velocity w m k hd
  · exact ⟨(move_fields w m).1, (move_fields w m).2.1, (move_frame w m m).2.2.1,
      (move_frame w m m).2.2.2.1⟩

/-! ## Double rounding -/

/-- Zero rounds to zero. -/
theorem roundDouble_zero : roundDouble 0 = 0 := by simp [roundDouble]

/-- Below the midpoint the rounding goes down. -/
theorem roundNearestEven_down (q : ℝ) (f : ℤ) (h1 : (f : ℝ) ≤ q) (h2 : q < f + 1 / 2) :
    roundNearestEven q = f := by
  have hf : ⌊q⌋ = f := Int.floor_eq_iff.mpr ⟨h1, by linarith⟩
  unfold roundNearestEven
  rw [hf, if_pos (by linarith)]

/-- Above the midpoint the rounding goes up. -/
theorem roundNearestEven_up (q : ℝ) (f : ℤ) (h1 : (f : ℝ) - 1 / 2 < q) (h2 : q ≤ f) :
    roundNearestEven q = f := by
  rcases h2.lt_or_eq with h | h
  · have hf : ⌊q⌋ = f - 1 := Int.floor_eq_iff.mpr ⟨by push_cast; linarith, by push_cast; linarith⟩
    unfold roundNearestEven
    rw [hf, if_neg (by push_cast; linarith), if_pos (by push_cast; linarith)]
    ring
  · exact roundNearestEven_down q f h.ge (by linarith)

/-- At the midpoint the rounding goes to the even neighbour. -/
theorem roundNearestEven_tie (q : ℝ) (f : ℤ) (h : q = f + 1 / 2) :
    roundNearestEven q = if Even f then f else f + 1 := by
  have hf : ⌊q⌋ = f := Int.floor_eq_iff.mpr ⟨by linarith, by linarith⟩
  unfold roundNearestEven
  rw [hf, if_neg (by linarith), if_neg (by linarith)]

/-- The scaling exponent of a positive real whose scaled value lies in `[2^52, 2^53)`. -/
theorem roundDouble_scaled (y : ℝ) (j : ℕ) (h1 : (2 : ℝ) ^ 52 ≤ y * 2 ^ j)
    (h2 : y * 2 ^ j < (2 : ℝ) ^ 53) :
    roundDouble y = (roundNearestEven (y * 2 ^ j) : ℝ) / 2 ^ j := by
  have hj : (0 : ℝ) < 2 ^ j := by positivity
  have hy : 0 < y := by
    by_contra h
    push_neg at h
    have : y * 2 ^ j ≤ 0 := mul_nonpos_of_nonpos_of_nonneg h hj.le
    have : (0 : ℝ) < 2 ^ 52 := by positivity
    linarith
  have hlog : Int.log 2 |y| = 52 - (j : ℤ) := by
    rw [abs_of_pos hy]
    apply le_antisymm
    · have : Int.log 2 y < 52 - (j : ℤ) + 1 := by
        rw [← Int.lt_zpow_iff_log_lt (by norm_num) hy]
        simp only [Nat.cast_ofNat]
        rw [show (52 : ℤ) - j + 1 = 53 - j by ring, zpow_sub₀ (by norm_num), zpow_natCast]
        rw [lt_div_iff₀ hj]
        exact_mod_cast h2
      omega
    · rw [← Int.zpow_le_iff_le_log (by norm_num) hy]
      simp only [Nat.cast_ofNat]
      rw [zpow_sub₀ (by norm_num), zpow_natCast, div_le_iff₀ hj]
      exact_mod_cast h1
  unfold roundDouble
  rw [if_neg hy.ne', hlog]
  have hz : (2 : ℝ) ^ ((52 : ℤ) - j - 52) = 1 / 2 ^ j := by
    rw [show (52 : ℤ) - j - 52 = -(j : ℤ) by ring, zpow_neg, zpow_natCast, one_div]
  rw [hz]
  rw [show y / (1 / 2 ^ j) = y * 2 ^ j by field_simp]
  ring

/-- A value in the lower half of the cell of `m / 2^j` rounds to it. -/
theorem roundDouble_down (m : ℤ) (j : ℕ) (y : ℝ) (hm : (2 : ℝ) ^ 52 ≤ m) (hm' : (m : ℝ) < 2 ^ 53)
    (h1 : (m : ℝ) / 2 ^ j ≤ y) (h2 : y < (m + 1 / 2) / 2 ^ j) :
    roundDouble y = m / 2 ^ j := by
  have hj : (0 : ℝ) < 2 ^ j := by positivity
  have h1' : (m : ℝ) ≤ y * 2 ^ j := (div_le_iff₀ hj).mp h1
  have h2' : y * 2 ^ j < m + 1 / 2 := (lt_div_iff₀ hj).mp h2
  have hm'' : (m : ℝ) + 1 ≤ 2 ^ 53 := by
    have : m + 1 ≤ 2 ^ 53 := by
      have : m < 2 ^ 53 := by exact_mod_cast hm'
      omega
    exact_mod_cast this
  rw [roundDouble_scaled y j (le_trans hm h1') (by linarith),
    roundNearestEven_down _ m h1' h2']

/-- A value in the upper half of the cell below `m / 2^j` rounds to it. -/
theorem roundDouble_up (m : ℤ) (j : ℕ) (y : ℝ) (hm : (2 : ℝ) ^ 52 < m) (hm' : (m : ℝ) ≤ 2 ^ 53)
    (h1 : ((m : ℝ) - 1 / 2) / 2 ^ j < y) (h2 : y < m / 2 ^ j) :
    roundDouble y = m / 2 ^ j := by
  have hj : (0 : ℝ) < 2 ^ j := by positivity
  have h1' : (m : ℝ) - 1 / 2 < y * 2 ^ j := (div_lt_iff₀ hj).mp h1
  have h2' : y * 2 ^ j < m := (lt_div_iff₀ hj).mp h2
  have hm'' : (2 : ℝ) ^ 52 + 1 ≤ m := by
    have : (2 : ℤ) ^ 52 + 1 ≤ m := by
      have : (2 : ℤ) ^ 52 < m := by exact_mod_cast hm
      omega
    exact_mod_cast this
  rw [roundDouble_scaled y j (by linarith) (by linarith),
    roundNearestEven_up _ m h1' h2'.le]

/-- A representable value rounds to itself. -/
theorem roundDouble_exact (m : ℤ) (j : ℕ) (hm : (2 : ℝ) ^ 52 ≤ m) (hm' : (m : ℝ) < 2 ^ 53) :
    roundDouble (m / 2 ^ j) = m / 2 ^ j :=
  roundDouble_down m j _ hm hm' le_rfl (by
    have hj : (0 : ℝ) < 2 ^ j := by positivity
    exact div_lt_div_of_pos_right (by linarith) hj)

/-! ## Taylor bounds for `sin` and `cos` -/

/-- The exponential series of `x * I` up to order 11, split in real and imaginary
part. -/
theorem taylor_sum_eq (x : ℝ) :
    ∑ m ∈ Finset.range 12, ((x : ℂ) * Complex.I) ^ m / (m.factorial : ℂ) =
      ((1 - x ^ 2 / 2 + x ^ 4 / 24 - x ^ 6 / 720 + x ^ 8 / 40320 - x ^ 10 / 3628800 : ℝ) : ℂ) +
      ((x - x ^ 3 / 6 + x ^ 5 / 120 - x ^ 7 / 5040 + x ^ 9 / 362880 - x ^ 11 / 39916800 : ℝ) : ℂ)
        * Complex.I := by
  have hI : Complex.I ^ 2 = -1 := Complex.I_sq
  have h3 : Complex.I ^ 3 = -Complex.I := by rw [pow_succ, hI]; ring
  have h4 : Complex.I ^ 4 = 1 := by rw [pow_succ, h3]; ring_nf; rw [hI]; ring
  have h5 : Complex.I ^ 5 = Complex.I := by rw [pow_succ, h4]; ring
  have h6 : Complex.I ^ 6 = -1 := by rw [pow_succ, h5]; ring_nf; rw [hI]
  have h7 : Complex.I ^ 7 = -Complex.I := by rw [pow_succ, h6]; ring
  have h8 : Complex.I ^ 8 = 1 := by rw [pow_succ, h7]; ring_nf; rw [hI]; ring
  have h9 : Complex.I ^ 9 = Complex.I := by rw [pow_succ, h8]; ring
  have h10 : Complex.I ^ 10 = -1 := by rw [pow_succ, h9]; ring_nf; rw [hI]
  have h11 : Complex.I ^ 11 = -Complex.I := by rw [pow_succ, h10]; ring
  simp only [Finset.sum_range_succ, Finset.sum_range_zero, Nat.factorial, mul_pow, hI, h3, h4, h5,
    h6, h7, h8, h9, h10, h11]
  push_cast
  ring

/-- Taylor polynomials of order 11 approximate `cos` and `sin` on `[-1, 1]` with
error at most `|x|^12 * 13 / 5748019200`. -/
theorem cos_sin_taylor12 (x : ℝ) (hx : |x| ≤ 1) :
    |Real.cos x - (1 - x ^ 2 / 2 + x ^ 4 / 24 - x ^ 6 / 720 + x ^ 8 / 40320 - x ^ 10 / 3628800)|
      ≤ |x| ^ 12 * (13 / 5748019200) ∧
    |Real.sin x - (x - x ^ 3 / 6 + x ^ 5 / 120 - x ^ 7 / 5040 + x ^ 9 / 362880 - x ^ 11 / 39916800)|
      ≤ |x| ^ 12 * (13 / 5748019200) := by
  have h := Complex.exp_bound (x := (x : ℂ) * Complex.I) (by simpa using hx) (n := 12) (by norm_num)
  rw [taylor_sum_eq] at h
  have habs : Complex.abs ((x : ℂ) * Complex.I) = |x| := by simp
  rw [habs] at h
  have hb : |x| ^ 12 * (((12 : ℕ).succ : ℝ) * (((12 : ℕ).factorial : ℝ) * ((12 : ℕ) : ℝ))⁻¹) =
      |x| ^ 12 * (13 / 5748019200) := by
    norm_num [Nat.factorial]
  rw [hb] at h
  constructor
  · refine le_trans ?_ h
    have := Complex.abs_re_le_abs (Complex.exp (x * Complex.I) -
      (((1 - x ^ 2 / 2 + x ^ 4 / 24 - x ^ 6 / 720 + x ^ 8 / 40320 - x ^ 10 / 3628800 : ℝ) : ℂ) +
      ((x - x ^ 3 / 6 + x ^ 5 / 120 - x ^ 7 / 5040 + x ^ 9 / 362880 - x ^ 11 / 39916800 : ℝ) : ℂ)
        * Complex.I))
    rw [Complex.sub_re, Complex.exp_ofReal_mul_I_re] at this
    simpa only [Complex.add_re, Complex.ofReal_re, Complex.mul_re, Complex.ofReal_im, Complex.I_re,
      Complex.I_im, mul_zero, zero_mul, sub_zero, add_zero] using this
  · refine le_trans ?_ h
    have := Complex.abs_im_le_abs (Complex.exp (x * Complex.I) -
      (((1 - x ^ 2 / 2 + x ^ 4 / 24 - x ^ 6 / 720 + x ^ 8 / 40320 - x ^ 10 / 3628800 : ℝ) : ℂ) +
      ((x - x ^ 3 / 6 + x ^ 5 / 120 - x ^ 7 / 5040 + x ^ 9 / 362880 - x ^ 11 / 39916800 : ℝ) : ℂ)
        * Complex.I))
    rw [Complex.sub_im, Complex.exp_ofReal_mul_I_im] at this
    simpa only [Complex.add_im, Complex.ofReal_re, Complex.mul_im, Complex.ofReal_im, Complex.I_re,
      Complex.I_im, mul_zero, zero_mul, mul_one, zero_add, add_zero] using this

/-! ## Double arithmetic on concrete values

Each lemma is one rounding step of the double computations traced further down:
the exact result of the operation on the left, the double it rounds to on the
right. -/

/-- The double `cos(0.08)`. -/
theorem rd_cos_a :
    roundDouble (Real.cos (5764607523034235 / 2 ^ 56)) = 8978391586133503 / 2 ^ 53 := by
  have hx : |(5764607523034235 / 2 ^ 56 : ℝ)| = 5764607523034235 / 2 ^ 56 := abs_of_pos (by norm_num)
  have ht := (cos_sin_taylor12 (5764607523034235 / 2 ^ 56) (by rw [hx]; norm_num)).1
  rw [hx, abs_le] at ht
  have h1 := ht.1
  have h2 := ht.2
  norm_num at h1 h2
  have h := roundDouble_up 8978391586133503 53 (Real.cos (5764607523034235 / 2 ^ 56)) (by norm_num) (by norm_num)
    (by norm_num; linarith) (by norm_num; linarith)
  rw [h, Int.cast_ofNat]

/-- The double `sin(0.08)`. -/
theorem rd_sin_a :
    roundDouble (Real.sin (5764607523034235 / 2 ^ 56)) = 5758460575695894 / 2 ^ 56 := by
  have hx : |(5764607523034235 / 2 ^ 56 : ℝ)| = 5764607523034235 / 2 ^ 56 := abs_of_pos (by norm_num)
  have ht := (cos_sin_taylor12 (5764607523034235 / 2 ^ 56) (by rw [hx]; norm_num)).2
  rw [hx, abs_le] at ht
  have h1 := ht.1
  have h2 := ht.2
  norm_num at h1 h2
  have h := roundDouble_up 5758460575695894 56 (Real.sin (5764607523034235 / 2 ^ 56)) (by norm_num) (by norm_num)
    (by norm_num; linarith) (by norm_num; linarith)
  rw [h, Int.cast_ofNat]

/-- The double product `cos(0.08) * cos(0.08)`. -/
theorem rd_cc_a :
    roundDouble (8978391586133503 / 2 ^ 53 * (8978391586133503 / 2 ^ 53)) = 8949676052910958 / 2 ^ 53 := by
  have h := roundDouble_up 8949676052910958 53 (8978391586133503 / 2 ^ 53 * (8978391586133503 / 2 ^ 53)) (by norm_num) (by norm_num) (by norm_num) (by norm_num)
  rw [h, Int.cast_ofNat]

/-- The double product `sin(0.08) * sin(0.08)`. -/
theorem rd_ss_a :
    roundDouble (5758460575695894 / 2 ^ 56 * (5758460575695894 / 2 ^ 56)) = 7362969834244534 / 2 ^ 60 := by
  have h := roundDouble_down 7362969834244534 60 (5758460575695894 / 2 ^ 56 * (5758460575695894 / 2 ^ 56)) (by norm_num) (by norm_num) (by norm_num) (by norm_num)
  rw [h, Int.cast_ofNat]

/-- The double sum passed to `acos` at latitude `0.08`. -/
theorem rd_arg_a :
    roundDouble (8949676052910958 / 2 ^ 53 + 7362969834244534 / 2 ^ 60) = 4503599627370497 / 2 ^ 52 := by
  have h := roundDouble_up 4503599627370497 52 (8949676052910958 / 2 ^ 53 + 7362969834244534 / 2 ^ 60) (by norm_num) (by norm_num) (by norm_num) (by norm_num)
  rw [h, Int.cast_ofNat]

/-- The double `cos(1/16)`. -/
theorem rd_cos_b :
    roundDouble (Real.cos (1 / 16)) = 8989612794574035 / 2 ^ 53 := by
  have hx : |(1 / 16 : ℝ)| = 1 / 16 := abs_of_pos (by norm_num)
  have ht := (cos_sin_taylor12 (1 / 16) (by rw [hx]; norm_num)).1
  rw [hx, abs_le] at ht
  have h1 := ht.1
  have h2 := ht.2
  norm_num at h1 h2
  have h := roundDouble_down 8989612794574035 53 (Real.cos (1 / 16)) (by norm_num) (by norm_num)
    (by norm_num; linarith) (by norm_num; linarith)
  rw [h, Int.cast_ofNat]

/-- The double `sin(1/16)`. -/
theorem rd_sin_b :
    roundDouble (Real.sin (1 / 16)) = 9001336337944283 / 2 ^ 57 := by
  have hx : |(1 / 16 : ℝ)| = 1 / 16 := abs_of_pos (by norm_num)
  have ht := (cos_sin_taylor12 (1 / 16) (by rw [hx]; norm_num)).2
  rw [hx, abs_le] at ht
  have h1 := ht.1
  have h2 := ht.2
  norm_num at h1 h2
  have h := roundDouble_up 9001336337944283 57 (Real.sin (1 / 16)) (by norm_num) (by norm_num)
    (by norm_num; linarith) (by norm_num; linarith)
  rw [h, Int.cast_ofNat]

/-- The double product `cos(1/16) * cos(1/16)`. -/
theorem rd_cc_b :
    roundDouble (8989612794574035 / 2 ^ 53 * (8989612794574035 / 2 ^ 53)) = 8972060671782377 / 2 ^ 53 := by
  have h := roundDouble_down 8972060671782377 53 (8989612794574035 / 2 ^ 53 * (8989612794574035 / 2 ^ 53)) (by norm_num) (by norm_num) (by norm_num) (by norm_num)
  rw [h, Int.cast_ofNat]

/-- The double product `sin(1/16) * sin(1/16)`. -/
theorem rd_ss_b :
    roundDouble (9001336337944283 / 2 ^ 57 * (9001336337944283 / 2 ^ 57)) = 8995477237405258 / 2 ^ 61 := by
  have h := roundDouble_up 8995477237405258 61 (9001336337944283 / 2 ^ 57 * (9001336337944283 / 2 ^ 57)) (by norm_num) (by norm_num) (by norm_num) (by norm_num)
  rw [h, Int.cast_ofNat]

/-- The double sum passed to `acos` at latitude `1/16`. -/
theorem rd_arg_b :
    roundDouble (8972060671782377 / 2 ^ 53 + 8995477237405258 / 2 ^ 61) = 9007199254740991 / 2 ^ 53 := by
  have h := roundDouble_down 9007199254740991 53 (8972060671782377 / 2 ^ 53 + 8995477237405258 / 2 ^ 61) (by norm_num) (by norm_num) (by norm_num) (by norm_num)
  rw [h, Int.cast_ofNat]

/-- The integer `1` is a double. -/
theorem rd_int_1 : roundDouble 1 = 1 := by
  have h := roundDouble_exact 4503599627370496 52 (by norm_num) (by norm_num)
  have e : (1 : ℝ) = ((4503599627370496 : ℤ) : ℝ) / 2 ^ 52 := by norm_num
  rw [e, h]

/-- The double `acos(1 - 2^-53)` is `2^-26`. -/
theorem rd_acos_b : roundDouble (Real.arccos (9007199254740991 / 2 ^ 53)) = 1 / 2 ^ 26 := by
  have hx : |(1 / 2 ^ 26 : ℝ)| = 1 / 2 ^ 26 := abs_of_pos (by norm_num)
  have hy : |((4503599627370496 + 1 / 2) / 2 ^ 78 : ℝ)| = (4503599627370496 + 1 / 2) / 2 ^ 78 :=
    abs_of_pos (by norm_num)
  have hlo := (cos_sin_taylor12 (1 / 2 ^ 26) (by rw [hx]; norm_num)).1
  have hhi := (cos_sin_taylor12 ((4503599627370496 + 1 / 2) / 2 ^ 78) (by rw [hy]; norm_num)).1
  rw [hx, abs_le] at hlo
  rw [hy, abs_le] at hhi
  have h1 := hlo.1
  have h2 := hhi.2
  norm_num at h1 h2
  have hpi : (3 : ℝ) < Real.pi := Real.pi_gt_three
  have hclo : (9007199254740991 / 2 ^ 53 : ℝ) ≤ Real.cos (1 / 2 ^ 26) := by
    norm_num
    linarith
  have hchi : Real.cos ((4503599627370496 + 1 / 2) / 2 ^ 78) < (9007199254740991 / 2 ^ 53 : ℝ) := by
    norm_num
    linarith
  have e1 : Real.arccos (Real.cos (1 / 2 ^ 26)) = 1 / 2 ^ 26 :=
    Real.arccos_cos (by norm_num) (by norm_num; linarith)
  have e2 : Real.arccos (Real.cos ((4503599627370496 + 1 / 2) / 2 ^ 78)) =
      (4503599627370496 + 1 / 2) / 2 ^ 78 :=
    Real.arccos_cos (by norm_num) (by norm_num; linarith)
  have hge : (1 / 2 ^ 26 : ℝ) ≤ Real.arccos (9007199254740991 / 2 ^ 53) := by
    rw [← e1]
    exact Real.strictAntiOn_arccos.antitoneOn
      (Set.mem_Icc.2 ⟨by norm_num, by norm_num⟩)
      (Set.mem_Icc.2 ⟨Real.neg_one_le_cos _, Real.cos_le_one _⟩) hclo
  have hlt : Real.arccos (9007199254740991 / 2 ^ 53) < (4503599627370496 + 1 / 2) / 2 ^ 78 := by
    rw [← e2]
    exact Real.strictAntiOn_arccos
      (Set.mem_Icc.2 ⟨Real.neg_one_le_cos _, Real.cos_le_one _⟩)
      (Set.mem_Icc.2 ⟨by norm_num, by norm_num⟩) hchi
  have h := roundDouble_down 4503599627370496 78 (Real.arccos (9007199254740991 / 2 ^ 53))
    (by norm_num) (by norm_num) (by norm_num; linarith) (by norm_num; linarith)
  rw [h]
  norm_num

/-! ## Properties of the rounding -/

/-- An integer rounds to itself. -/
theorem roundNearestEven_intCast (n : ℤ) : roundNearestEven (n : ℝ) = n :=
  roundNearestEven_down _ n le_rfl (by linarith)

/-- Rounding to the nearest integer, ties to even, commutes with negation. -/
theorem roundNearestEven_neg (q : ℝ) : roundNearestEven (-q) = -roundNearestEven q := by
  have h0 : (⌊q⌋ : ℝ) ≤ q := Int.floor_le q
  have h1 : q < ⌊q⌋ + 1 := Int.lt_floor_add_one q
  rcases lt_trichotomy (q - ⌊q⌋) (1 / 2) with h | h | h
  · rcases h0.lt_or_eq with hlt | heq
    · rw [roundNearestEven_down q ⌊q⌋ h0 (by linarith),
        roundNearestEven_up (-q) (-⌊q⌋) (by push_cast; linarith) (by push_cast; linarith)]
    · rw [← heq, roundNearestEven_intCast, ← Int.cast_neg, roundNearestEven_intCast]
  · rw [roundNearestEven_tie q ⌊q⌋ (by linarith),
      roundNearestEven_tie (-q) (-⌊q⌋ - 1) (by push_cast; linarith)]
    have hp : Even (-⌊q⌋ - 1) ↔ ¬ Even ⌊q⌋ := by
      rw [show -⌊q⌋ - 1 = -(⌊q⌋ + 1) by ring, even_neg, Int.even_add_one]
    by_cases he : Even ⌊q⌋
    · rw [if_pos he, if_neg (by rw [hp]; exact not_not.mpr he)]
      ring
    · rw [if_neg he, if_pos (hp.mpr he)]
      ring
  · rw [roundNearestEven_up q (⌊q⌋ + 1) (by push_cast; linarith) (by push_cast; linarith),
      roundNearestEven_down (-q) (-(⌊q⌋ + 1)) (by push_cast; linarith) (by push_cast; linarith)]

/-- Rounding to a double commutes with negation. -/
theorem roundDouble_neg (x : ℝ) : roundDouble (-x) = -roundDouble x := by
  unfold roundDouble
  by_cases h : x = 0
  · simp [h]
  · rw [if_neg (neg_ne_zero.mpr h), if_neg h, abs_neg, neg_div, roundNearestEven_neg]
    push_cast
    ring

/-- The significand of a positive real, scaled by its binary exponent, lies in
`[2^52, 2^53)`. -/
theorem scaled_range (x : ℝ) (hx : 0 < x) :
    (2 : ℝ) ^ 52 ≤ x / (2 : ℝ) ^ (Int.log 2 |x| - 52) ∧
    x / (2 : ℝ) ^ (Int.log 2 |x| - 52) < (2 : ℝ) ^ 53 := by
  rw [abs_of_pos hx]
  have h1 := Int.zpow_log_le_self (R := ℝ) (b := 2) (by norm_num) hx
  have h2 := Int.lt_zpow_succ_log_self (R := ℝ) (b := 2) (by norm_num) x
  simp only [Nat.cast_ofNat] at h1 h2
  have hp : (0 : ℝ) < (2 : ℝ) ^ (Int.log 2 x - 52) := by positivity
  have e1 : (2 : ℝ) ^ 52 * (2 : ℝ) ^ (Int.log 2 x - 52) = (2 : ℝ) ^ Int.log 2 x := by
    rw [← zpow_natCast, ← zpow_add₀ (by norm_num)]
    congr 1
    push_cast
    ring
  have e2 : (2 : ℝ) ^ 53 * (2 : ℝ) ^ (Int.log 2 x - 52) = (2 : ℝ) ^ (Int.log 2 x + 1) := by
    rw [← zpow_natCast, ← zpow_add₀ (by norm_num)]
    congr 1
    push_cast
    ring
  constructor
  · rw [le_div_iff₀ hp, e1]
    exact h1
  · rw [div_lt_iff₀ hp, e2]
    exact h2

/-- The rounding of a real whose significand at exponent `e` lies in
`[2^52, 2^53)`. -/
theorem roundDouble_zscaled (y : ℝ) (e : ℤ) (h1 : (2 : ℝ) ^ 52 ≤ y / (2 : ℝ) ^ e)
    (h2 : y / (2 : ℝ) ^ e < (2 : ℝ) ^ 53) :
    roundDouble y = (roundNearestEven (y / (2 : ℝ) ^ e) : ℝ) * (2 : ℝ) ^ e := by
  have hp : (0 : ℝ) < (2 : ℝ) ^ e := by positivity
  have hy : 0 < y := by
    by_contra h
    push_neg at h
    have : y / (2 : ℝ) ^ e ≤ 0 := div_nonpos_of_nonpos_of_nonneg h hp.le
    have : (0 : ℝ) < 2 ^ 52 := by positivity
    linarith
  have hlog : Int.log 2 |y| = e + 52 := by
    rw [abs_of_pos hy]
    apply le_antisymm
    · have : Int.log 2 y < e + 52 + 1 := by
        rw [← Int.lt_zpow_iff_log_lt (by norm_num) hy]
        simp only [Nat.cast_ofNat]
        rw [show e + 52 + 1 = (53 : ℕ) + e by push_cast; ring, zpow_add₀ (by norm_num),
          zpow_natCast]
        exact (div_lt_iff₀ hp).mp h2
      omega
    · rw [← Int.zpow_le_iff_le_log (by norm_num) hy]
      simp only [Nat.cast_ofNat]
      rw [show e + 52 = (52 : ℕ) + e by push_cast; ring, zpow_add₀ (by norm_num), zpow_natCast]
      exact (le_div_iff₀ hp).mp h1
  unfold roundDouble
  rw [if_neg hy.ne', hlog, show e + 52 - 52 = e by ring]

/-- The double of a positive real is a significand in `[2^52, 2^53]` at the
exponent of the real. -/
theorem roundDouble_repr (x : ℝ) (hx : 0 < x) :
    ∃ n : ℤ, (2 : ℤ) ^ 52 ≤ n ∧ n ≤ (2 : ℤ) ^ 53 ∧
      roundDouble x = (n : ℝ) * (2 : ℝ) ^ (Int.log 2 |x| - 52) := by
  have hr := scaled_range x hx
  refine ⟨roundNearestEven (x / (2 : ℝ) ^ (Int.log 2 |x| - 52)), ?_, ?_, ?_⟩
  · have hf : (2 : ℤ) ^ 52 ≤ ⌊x / (2 : ℝ) ^ (Int.log 2 |x| - 52)⌋ :=
      Int.le_floor.mpr (by push_cast; linarith [hr.1])
    unfold roundNearestEven
    split_ifs <;> omega
  · have hf : ⌊x / (2 : ℝ) ^ (Int.log 2 |x| - 52)⌋ < (2 : ℤ) ^ 53 :=
      Int.floor_lt.mpr (by push_cast; linarith [hr.2])
    unfold roundNearestEven
    split_ifs <;> omega
  · unfold roundDouble
    rw [if_neg hx.ne']

/-- A positive real rounds to a positive double. -/
theorem roundDouble_pos (x : ℝ) (hx : 0 < x) : 0 < roundDouble x := by
  obtain ⟨n, h1, _, h⟩ := roundDouble_repr x hx
  rw [h]
  have : (0 : ℝ) < n := by
    have : (0 : ℤ) < n := by omega
    exact_mod_cast this
  positivity

/-- A nonnegative real rounds to a nonnegative double. -/
theorem roundDouble_nonneg (x : ℝ) (hx : 0 ≤ x) : 0 ≤ roundDouble x := by
  rcases hx.lt_or_eq with h | h
  · exact (roundDouble_pos x h).le
  · rw [← h, roundDouble_zero]

/-- Only zero rounds to zero. -/
theorem roundDouble_eq_zero_iff (x : ℝ) : roundDouble x = 0 ↔ x = 0 := by
  constructor
  · intro h
    rcases lt_trichotomy x 0 with hx | hx | hx
    · have := roundDouble_pos (-x) (by linarith)
      rw [roundDouble_neg] at this
      linarith
    · exact hx
    · have := roundDouble_pos x hx
      linarith
  · intro h
    rw [h, roundDouble_zero]

/-- Rounding a double again changes nothing. -/
theorem roundDouble_idem (x : ℝ) : roundDouble (roundDouble x) = roundDouble x := by
  have key : ∀ x : ℝ, 0 < x → roundDouble (roundDouble x) = roundDouble x := by
    intro x hx
    obtain ⟨n, h1, h2, h⟩ := roundDouble_repr x hx
    rw [h]
    have hp : (0 : ℝ) < (2 : ℝ) ^ (Int.log 2 |x| - 52) := by positivity
    rcases h2.lt_or_eq with hlt | heq
    · have hq : (n : ℝ) * (2 : ℝ) ^ (Int.log 2 |x| - 52) / (2 : ℝ) ^ (Int.log 2 |x| - 52) = n := by
        field_simp
      rw [roundDouble_zscaled _ (Int.log 2 |x| - 52) (by rw [hq]; exact_mod_cast h1)
        (by rw [hq]; exact_mod_cast hlt), hq, roundNearestEven_intCast]
    · have hq : (n : ℝ) * (2 : ℝ) ^ (Int.log 2 |x| - 52) / (2 : ℝ) ^ (Int.log 2 |x| - 52 + 1) =
          ((2 ^ 52 : ℤ) : ℝ) := by
        rw [heq, zpow_add_one₀ (by norm_num)]
        push_cast
        field_simp
        ring
      rw [roundDouble_zscaled _ (Int.log 2 |x| - 52 + 1) (by rw [hq]; norm_num)
        (by rw [hq]; norm_num), hq, roundNearestEven_intCast, heq, zpow_add_one₀ (by norm_num)]
      push_cast
      ring
  rcases lt_trichotomy x 0 with hx | hx | hx
  · have := key (-x) (by linarith)
    rw [roundDouble_neg, roundDouble_neg] at this
    linarith
  · rw [hx, roundDouble_zero, roundDouble_zero]
  · exact key x hx


/-! ## Double arithmetic on the heap -/

theorem b64_add (a b : ℝ) :
    add (Binary64.fin a) (Binary64.fin b) = Binary64.fin (roundDouble (a + b)) := rfl

theorem b64_sub (a b : ℝ) :
    sub (Binary64.fin a) (Binary64.fin b) = Binary64.fin (roundDouble (a - b)) := rfl

theorem b64_mul (a b : ℝ) :
    mul (Binary64.fin a) (Binary64.fin b) = Binary64.fin (roundDouble (a * b)) := rfl

theorem b64_sin (a : ℝ) : sin (Binary64.fin a) = Binary64.fin (roundDouble (Real.sin a)) := rfl

theorem b64_cos (a : ℝ) : cos (Binary64.fin a) = Binary64.fin (roundDouble (Real.cos a)) := rfl

theorem b64_acos (a : ℝ) (h1 : -1 ≤ a) (h2 : a ≤ 1) :
    acos (Binary64.fin a) = Binary64.fin (roundDouble (Real.arccos a)) := by
  show (if -1 ≤ a ∧ a ≤ 1 then Binary64.fin (roundDouble (Real.arccos a)) else Binary64.nan) = _
  rw [if_pos ⟨h1, h2⟩]

theorem b64_acos_gt (a : ℝ) (h : 1 < a) : acos (Binary64.fin a) = Binary64.nan := by
  show (if -1 ≤ a ∧ a ≤ 1 then Binary64.fin (roundDouble (Real.arccos a)) else Binary64.nan) = _
  rw [if_neg (fun hh => absurd hh.2 (not_le.mpr h))]

theorem b64_sqrt_zero : sqrt (Binary64.fin 0) = Binary64.fin 0 := by
  show (if (0 : ℝ) ≤ 0 then Binary64.fin (roundDouble (Real.sqrt 0)) else Binary64.nan) = _
  rw [if_pos le_rfl, Real.sqrt_zero, roundDouble_zero]

theorem b64_ofInt (k : ℤ) : (ofInt k : Binary64) = Binary64.fin (roundDouble (k : ℝ)) := rfl

theorem b64_ofInt_zero : (ofInt 0 : Binary64) = Binary64.fin 0 := by
  rw [b64_ofInt, Int.cast_zero, roundDouble_zero]

/-- The sum of two squares, rounded at every step, is not negative. -/
theorem roundDouble_sq_add_sq_nonneg (c s : ℝ) :
    0 ≤ roundDouble (roundDouble (c * c) + roundDouble (s * s)) :=
  roundDouble_nonneg _ (add_nonneg (roundDouble_nonneg _ (mul_self_nonneg c))
    (roundDouble_nonneg _ (mul_self_nonneg s)))

/-- Two objects at the same finite position, in double arithmetic: the argument of
`acos` is the rounded sum of the rounded squares of the cosine and the sine of the
latitude, and the direction vector of `calculateSpeed` is exactly zero. -/
theorem colocated_double (w : World Binary64) (m T : Nat) (lon lat : ℝ)
    (h1 : (w m)._lon = .fin lon) (h2 : (w m)._lat = .fin lat)
    (h3 : (w T)._lon = .fin lon) (h4 : (w T)._lat = .fin lat) :
    acosArgument w m T = .fin (roundDouble
      (roundDouble (roundDouble (Real.cos lat) * roundDouble (Real.cos lat)) +
        roundDouble (roundDouble (Real.sin lat) * roundDouble (Real.sin lat)))) ∧
    dLon w m T = .fin 0 ∧ dLat w m T = .fin 0 ∧ length w m T = .fin 0 := by
  have hc0 : roundDouble (Real.cos (roundDouble (lon - lon))) = 1 := by
    rw [sub_self, roundDouble_zero, Real.cos_zero, rd_int_1]
  have hs0 : roundDouble (Real.sin (roundDouble (lon - lon))) = 0 := by
    rw [sub_self, roundDouble_zero, Real.sin_zero, roundDouble_zero]
  have hx : dLon w m T = .fin 0 := by
    unfold dLon getLongitude getLatitude
    rw [h1, h3, h4, b64_sub, b64_sin, b64_cos, b64_mul, hs0, zero_mul, roundDouble_zero]
  have hy : dLat w m T = .fin 0 := by
    unfold dLat getLongitude getLatitude
    rw [h1, h2, h3, h4, b64_sub, b64_sin, b64_cos, b64_cos, b64_mul, b64_mul, b64_mul, b64_sub,
      hc0, mul_one, roundDouble_idem,
      mul_comm (roundDouble (Real.sin lat)) (roundDouble (Real.cos lat)), sub_self,
      roundDouble_zero]
  refine ⟨?_, hx, hy, ?_⟩
  · unfold acosArgument getLongitude getLatitude
    rw [h1, h2, h3, h4, b64_sub, b64_sin, b64_cos, b64_cos, b64_mul, b64_mul, b64_mul, b64_add,
      hc0, mul_one, roundDouble_idem]
  · unfold length
    rw [hx, hy, b64_mul, b64_add, mul_zero, roundDouble_zero, add_zero, roundDouble_zero,
      b64_sqrt_zero]

/-- In double arithmetic `getDistance` gives the same value in both directions. -/
theorem getDistance_symm_double (w : World Binary64) (a b : Nat) (lon1 lat1 lon2 lat2 : ℝ)
    (h1 : (w a)._lon = .fin lon1) (h2 : (w a)._lat = .fin lat1)
    (h3 : (w b)._lon = .fin lon2) (h4 : (w b)._lat = .fin lat2) :
    getDistance w a b = getDistance w b a := by
  unfold getDistance getLongitude getLatitude
  rw [h1, h2, h3, h4]
  simp only [b64_sub, b64_sin, b64_cos, b64_mul, b64_add]
  rw [show lon1 - lon2 = -(lon2 - lon1) by ring, roundDouble_neg, Real.cos_neg,
    mul_comm (roundDouble (Real.cos lat2)) (roundDouble (Real.cos lat1)),
    mul_comm (roundDouble (Real.sin lat2)) (roundDouble (Real.sin lat1))]

/-- Positions in the co-located scenario: objects `1` and `2` at `(0, lat)`. -/
theorem colocatedScenario_positions (lat : ℝ) :
    ((colocatedScenario (.fin lat) : World Binary64) 1)._lon = .fin 0 ∧
    ((colocatedScenario (.fin lat) : World Binary64) 1)._lat = .fin lat ∧
    ((colocatedScenario (.fin lat) : World Binary64) 2)._lon = .fin 0 ∧
    ((colocatedScenario (.fin lat) : World Binary64) 2)._lat = .fin lat := by
  refine ⟨?_, ?_, ?_, ?_⟩ <;>
    simp [colocatedScenario, run, Op.apply, setLatitude, update_apply, World.fresh,
      MovingTarget.new, b64_ofInt_zero]

/-- The co-located scenario at latitude `0.08` in double arithmetic: the argument
of `acos` is `1 + 2^-52` and `getDistance` is NaN in both directions. -/
theorem colocated_eight_eval :
    acosArgument (colocatedScenario (.fin (5764607523034235 / 2 ^ 56)) : World Binary64) 1 2 =
      .fin (4503599627370497 / 2 ^ 52) ∧
    getDistance (colocatedScenario (.fin (5764607523034235 / 2 ^ 56)) : World Binary64) 1 2 = .nan ∧
    getDistance (colocatedScenario (.fin (5764607523034235 / 2 ^ 56)) : World Binary64) 2 1 = .nan := by
  have hp := colocatedScenario_positions (5764607523034235 / 2 ^ 56)
  have h12 := (colocated_double _ 1 2 0 _ hp.1 hp.2.1 hp.2.2.1 hp.2.2.2).1
  have h21 := (colocated_double _ 2 1 0 _ hp.2.2.1 hp.2.2.2 hp.1 hp.2.1).1
  rw [rd_cos_a, rd_sin_a, rd_cc_a, rd_ss_a, rd_arg_a] at h12 h21
  refine ⟨h12, ?_, ?_⟩
  · rw [getDistance_eq_acos, h12, b64_acos_gt _ (by norm_num)]
  · rw [getDistance_eq_acos, h21, b64_acos_gt _ (by norm_num)]

/-- The co-located scenario at latitude `1/16` in double arithmetic: the argument
of `acos` is `1 - 2^-53`, `getDistance` is `2^-26`, and the direction vector of
`calculateSpeed` is exactly zero. -/
theorem colocated_sixteenth_eval :
    acosArgument (colocatedScenario (.fin (1 / 16)) : World Binary64) 1 2 =
      .fin (9007199254740991 / 2 ^ 53) ∧
    getDistance (colocatedScenario (.fin (1 / 16)) : World Binary64) 1 2 = .fin (1 / 2 ^ 26) ∧
    dLon (colocatedScenario (.fin (1 / 16)) : World Binary64) 1 2 = .fin 0 ∧
    dLat (colocatedScenario (.fin (1 / 16)) : World Binary64) 1 2 = .fin 0 ∧
    length (colocatedScenario (.fin (1 / 16)) : World Binary64) 1 2 = .fin 0 := by
  have hp := colocatedScenario_positions (1 / 16)
  have h := colocated_double _ 1 2 0 _ hp.1 hp.2.1 hp.2.2.1 hp.2.2.2
  have h12 := h.1
  rw [rd_cos_b, rd_sin_b, rd_cc_b, rd_ss_b, rd_arg_b] at h12
  refine ⟨h12, ?_, h.2.1, h.2.2.1, h.2.2.2⟩
  rw [getDistance_eq_acos, h12, b64_acos _ (by norm_num) (by norm_num), rd_acos_b]


/-- In exact arithmetic `n` additions of `a` amount to adding `n * a`. -/
theorem addTimes_ideal (x a : ℝ) (n : Nat) :
    addTimes (IdealDouble.fin x) (IdealDouble.fin a) n = IdealDouble.fin (x + n * a) := by
  induction n with
  | zero => simp [addTimes]
  | succ n ih =>
    rw [addTimes, ih, ideal_add]
    congr 1
    push_cast
    ring

/-- Rounding to the nearest integer moves a real by at most a half. -/
theorem roundNearestEven_err (q : ℝ) : |(roundNearestEven q : ℝ) - q| ≤ 1 / 2 := by
  have h0 : (⌊q⌋ : ℝ) ≤ q := Int.floor_le q
  have h1 : q < ⌊q⌋ + 1 := Int.lt_floor_add_one q
  unfold roundNearestEven
  rw [abs_le]
  split_ifs with ha hb hc <;> push_cast <;> constructor <;> linarith

/-- Rounding to a double has a relative error of at most `2^-53`. -/
theorem roundDouble_err (t : ℝ) : |roundDouble t - t| ≤ |t| / 2 ^ 53 := by
  have key : ∀ t : ℝ, 0 < t → |roundDouble t - t| ≤ |t| / 2 ^ 53 := by
    intro t ht
    have hr := scaled_range t ht
    have hp : (0 : ℝ) < (2 : ℝ) ^ (Int.log 2 |t| - 52) := by positivity
    have he := roundNearestEven_err (t / (2 : ℝ) ^ (Int.log 2 |t| - 52))
    have hd : roundDouble t - t =
        ((roundNearestEven (t / (2 : ℝ) ^ (Int.log 2 |t| - 52)) : ℝ) -
          t / (2 : ℝ) ^ (Int.log 2 |t| - 52)) * (2 : ℝ) ^ (Int.log 2 |t| - 52) := by
      unfold roundDouble
      rw [if_neg ht.ne']
      field_simp
    rw [hd, abs_mul, abs_of_pos hp]
    have h2 : (2 : ℝ) ^ 52 * (2 : ℝ) ^ (Int.log 2 |t| - 52) ≤ t := (le_div_iff₀ hp).mp hr.1
    calc |(roundNearestEven (t / (2 : ℝ) ^ (Int.log 2 |t| - 52)) : ℝ) -
          t / (2 : ℝ) ^ (Int.log 2 |t| - 52)| * (2 : ℝ) ^ (Int.log 2 |t| - 52)
        ≤ 1 / 2 * (2 : ℝ) ^ (Int.log 2 |t| - 52) := mul_le_mul_of_nonneg_right he hp.le
      _ ≤ t / 2 ^ 53 := by
        rw [le_div_iff₀ (by positivity)]
        linarith
      _ = |t| / 2 ^ 53 := by rw [abs_of_pos ht]
  rcases lt_trichotomy t 0 with ht | ht | ht
  · have := key (-t) (by linarith)
    rw [roundDouble_neg, abs_neg] at this
    rw [show roundDouble t - t = -(-roundDouble t - -t) by ring, abs_neg]
    exact this
  · rw [ht, roundDouble_zero]
    simp
  · exact key t ht

/-- The sine is bounded by its argument. -/
theorem abs_sin_le_abs (z : ℝ) : |Real.sin z| ≤ |z| := by
  have key : ∀ z : ℝ, 0 ≤ z → |Real.sin z| ≤ z := by
    intro z hz
    rw [abs_le]
    constructor
    · have h1 := Real.neg_one_le_sin z
      by_cases hpi : z ≤ Real.pi
      · have := Real.sin_nonneg_of_nonneg_of_le_pi hz hpi
        linarith
      · push_neg at hpi
        linarith [Real.pi_gt_three]
    · exact Real.sin_le hz
  rcases le_total 0 z with hz | hz
  · rw [abs_of_nonneg hz]
    exact key z hz
  · have := key (-z) (by linarith)
    rw [Real.sin_neg, abs_neg] at this
    rw [abs_of_nonpos hz]
    exact this

/-- The sine changes by no more than its argument. -/
theorem abs_sin_sub_sin_le (a b : ℝ) : |Real.sin a - Real.sin b| ≤ |a - b| := by
  rw [Real.sin_sub_sin, abs_mul, abs_mul]
  have h1 := abs_sin_le_abs ((a - b) / 2)
  have h2 := Real.abs_cos_le_one ((a + b) / 2)
  have h3 : |(a - b) / 2| = |a - b| / 2 := by rw [abs_div]; norm_num
  rw [h3] at h1
  have h4 : (0 : ℝ) ≤ |Real.sin ((a - b) / 2)| := abs_nonneg _
  have h5 : (0 : ℝ) ≤ |Real.cos ((a + b) / 2)| := abs_nonneg _
  rw [show |(2 : ℝ)| = 2 by norm_num]
  nlinarith

/-- The cosine changes by no more than its argument. -/
theorem abs_cos_sub_cos_le (a b : ℝ) : |Real.cos a - Real.cos b| ≤ |a - b| := by
  rw [Real.cos_sub_cos, abs_mul, abs_mul]
  have h1 := abs_sin_le_abs ((a - b) / 2)
  have h2 := Real.abs_sin_le_one ((a + b) / 2)
  have h3 : |(a - b) / 2| = |a - b| / 2 := by rw [abs_div]; norm_num
  rw [h3] at h1
  have h4 : (0 : ℝ) ≤ |Real.sin ((a - b) / 2)| := abs_nonneg _
  have h5 : (0 : ℝ) ≤ |Real.sin ((a + b) / 2)| := abs_nonneg _
  rw [show |(-2 : ℝ)| = 2 by norm_num]
  nlinarith

/-- The error of a rounded sine: the rounding of the result plus the error of the
argument. -/
theorem sin_err (t T : ℝ) : |roundDouble (Real.sin t) - Real.sin T| ≤ 1 / 2 ^ 53 + |t - T| := by
  have h1 := roundDouble_err (Real.sin t)
  have h2 := abs_sin_sub_sin_le t T
  have h3 := Real.abs_sin_le_one t
  have h4 := abs_sub_le (roundDouble (Real.sin t)) (Real.sin t) (Real.sin T)
  have h5 : |Real.sin t| / 2 ^ 53 ≤ 1 / 2 ^ 53 := by
    apply div_le_div_of_nonneg_right h3 (by positivity)
  linarith

/-- The error of a rounded cosine. -/
theorem cos_err (t T : ℝ) : |roundDouble (Real.cos t) - Real.cos T| ≤ 1 / 2 ^ 53 + |t - T| := by
  have h1 := roundDouble_err (Real.cos t)
  have h2 := abs_cos_sub_cos_le t T
  have h3 := Real.abs_cos_le_one t
  have h4 := abs_sub_le (roundDouble (Real.cos t)) (Real.cos t) (Real.cos T)
  have h5 : |Real.cos t| / 2 ^ 53 ≤ 1 / 2 ^ 53 := by
    apply div_le_div_of_nonneg_right h3 (by positivity)
  linarith

/-- The error of a rounded product of two approximations of numbers in `[-1, 1]`. -/
theorem mul_err (A B a b δ : ℝ) (hA : |A| ≤ 1) (hB : |B| ≤ 1) (ha : |a - A| ≤ δ)
    (hb : |b - B| ≤ δ) (h1 : 1 / 2 ^ 53 ≤ δ) (h2 : δ ≤ 1 / 4) :
    |roundDouble (a * b) - A * B| ≤ 4 * δ := by
  have hr := roundDouble_err (a * b)
  have ha' : |a| ≤ 1 + δ := by
    have := abs_sub_le a A 0
    simp only [sub_zero] at this
    linarith
  have hb' : |b| ≤ 1 + δ := by
    have := abs_sub_le b B 0
    simp only [sub_zero] at this
    linarith
  have hab : |a * b| ≤ (1 + δ) * (1 + δ) := by
    rw [abs_mul]
    exact mul_le_mul ha' hb' (abs_nonneg _) (by linarith)
  have hd : |a * b - A * B| ≤ (1 + δ) * δ + δ := by
    have e : a * b - A * B = a * (b - B) + (a - A) * B := by ring
    rw [e]
    have t1 : |a * (b - B)| ≤ (1 + δ) * δ := by
      rw [abs_mul]
      exact mul_le_mul ha' hb (abs_nonneg _) (by linarith)
    have t2 : |(a - A) * B| ≤ δ * 1 := by
      rw [abs_mul]
      exact mul_le_mul ha hB (abs_nonneg _) (by linarith)
    have := abs_add (a * (b - B)) ((a - A) * B)
    linarith
  have h4 := abs_sub_le (roundDouble (a * b)) (a * b) (A * B)
  have h5 : |a * b| / 2 ^ 53 ≤ (1 + δ) * (1 + δ) * δ := by
    have : |a * b| / 2 ^ 53 = |a * b| * (1 / 2 ^ 53) := by ring
    rw [this]
    exact mul_le_mul hab h1 (by positivity) (by positivity)
  nlinarith

/-- The error of a rounded sum of two approximations of numbers in `[-1, 1]`. -/
theorem add_err (A B a b δ : ℝ) (hA : |A| ≤ 1) (hB : |B| ≤ 1) (ha : |a - A| ≤ δ)
    (hb : |b - B| ≤ δ) (h1 : 1 / 2 ^ 52 ≤ δ) :
    |roundDouble (a + b) - (A + B)| ≤ 4 * δ := by
  have hr := roundDouble_err (a + b)
  have hab : |a + b| ≤ 2 + 2 * δ := by
    have e : a + b = (a - A) + (b - B) + A + B := by ring
    have t1 := abs_add ((a - A) + (b - B) + A) B
    have t2 := abs_add ((a - A) + (b - B)) A
    have t3 := abs_add (a - A) (b - B)
    rw [e]
    linarith
  have hd : |a + b - (A + B)| ≤ 2 * δ := by
    have e : a + b - (A + B) = (a - A) + (b - B) := by ring
    rw [e]
    have := abs_add (a - A) (b - B)
    linarith
  have h4 := abs_sub_le (roundDouble (a + b)) (a + b) (A + B)
  have h5 : |a + b| / 2 ^ 53 ≤ (2 + 2 * δ) * (δ / 2) := by
    have e : |a + b| / 2 ^ 53 = |a + b| * (1 / 2 ^ 53) := by ring
    rw [e]
    refine mul_le_mul hab ?_ (by positivity) (by linarith)
    have : (1 : ℝ) / 2 ^ 53 = 1 / 2 ^ 52 / 2 := by norm_num
    rw [this]
    linarith
  nlinarith

/-- The sum passed to `acos` for two objects at the same latitude is within
`2^-49` of `1`. -/
theorem colocated_argument_err (φ : ℝ) :
    |roundDouble (roundDouble (roundDouble (Real.cos φ) * roundDouble (Real.cos φ)) +
      roundDouble (roundDouble (Real.sin φ) * roundDouble (Real.sin φ))) - 1| ≤ 1 / 2 ^ 49 := by
  have hc := cos_err φ φ
  have hs := sin_err φ φ
  rw [sub_self, abs_zero, add_zero] at hc hs
  have bc := Real.abs_cos_le_one φ
  have bs := Real.abs_sin_le_one φ
  have prod_le : ∀ p : ℝ, |p| ≤ 1 → |p * p| ≤ 1 := by
    intro p hp
    rw [abs_mul]
    exact mul_le_one₀ hp (abs_nonneg _) hp
  have hcc := mul_err (Real.cos φ) (Real.cos φ) _ _ (1 / 2 ^ 53) bc bc hc hc le_rfl (by norm_num)
  have hss := mul_err (Real.sin φ) (Real.sin φ) _ _ (1 / 2 ^ 53) bs bs hs hs le_rfl (by norm_num)
  have h := add_err (Real.cos φ * Real.cos φ) (Real.sin φ * Real.sin φ) _ _ (4 * (1 / 2 ^ 53))
    (prod_le _ bc) (prod_le _ bs) hcc hss (by norm_num)
  have e : Real.cos φ * Real.cos φ + Real.sin φ * Real.sin φ = 1 := by
    have := Real.sin_sq_add_cos_sq φ
    nlinarith
  rw [e] at h
  linarith

/-- The double `acos` of a number in `[1 - 2^-49, 1]` is at most `2^-23`. -/
theorem acos_near_one (g : ℝ) (h1 : 1 - 1 / 2 ^ 49 ≤ g) (h2 : g ≤ 1) :
    roundDouble (Real.arccos g) ≤ 1 / 2 ^ 23 := by
  have hx : |(3 / 2 ^ 25 : ℝ)| = 3 / 2 ^ 25 := abs_of_pos (by norm_num)
  have ht := (cos_sin_taylor12 (3 / 2 ^ 25) (by rw [hx]; norm_num)).1
  rw [hx, abs_le] at ht
  have ht2 := ht.2
  norm_num at ht2
  have hcos : Real.cos (3 / 2 ^ 25) ≤ g := by
    have : Real.cos (3 / 2 ^ 25) ≤ 1 - 1 / 2 ^ 49 := by
      norm_num
      linarith
    linarith
  have e1 : Real.arccos (Real.cos (3 / 2 ^ 25)) = 3 / 2 ^ 25 :=
    Real.arccos_cos (by norm_num) (by linarith [Real.pi_gt_three])
  have hle : Real.arccos g ≤ 3 / 2 ^ 25 := by
    rw [← e1]
    exact Real.strictAntiOn_arccos.antitoneOn
      (Set.mem_Icc.2 ⟨Real.neg_one_le_cos _, Real.cos_le_one _⟩)
      (Set.mem_Icc.2 ⟨by linarith, h2⟩) hcos
  have h0 := Real.arccos_nonneg g
  have hr := roundDouble_err (Real.arccos g)
  rw [abs_of_nonneg h0, abs_le] at hr
  have : Real.arccos g / 2 ^ 53 ≤ 3 / 2 ^ 25 / 2 ^ 53 :=
    div_le_div_of_nonneg_right hle (by positivity)
  have hn : (3 : ℝ) / 2 ^ 25 + 3 / 2 ^ 25 / 2 ^ 53 ≤ 1 / 2 ^ 23 := by norm_num
  linarith [hr.2]

/-- C12, evaluated at the failing input: two targets at longitude `0` and
latitude `0.08` (the double `5764607523034235 / 2^56`): `getDistance` is NaN in
both directions, so the result is not a number in `[0, pi]`. -/
theorem getDistance_nan_at_equal_latitude :
    ((colocatedScenario (.fin (5764607523034235 / 2 ^ 56)) : World Binary64) 1)._lon = .fin 0 ∧
    ((colocatedScenario (.fin (5764607523034235 / 2 ^ 56)) : World Binary64) 1)._lat =
      .fin (5764607523034235 / 2 ^ 56) ∧
    ((colocatedScenario (.fin (5764607523034235 / 2 ^ 56)) : World Binary64) 2)._lon = .fin 0 ∧
    ((colocatedScenario (.fin (5764607523034235 / 2 ^ 56)) : World Binary64) 2)._lat =
      .fin (5764607523034235 / 2 ^ 56) ∧
    getDistance (colocatedScenario (.fin (5764607523034235 / 2 ^ 56)) : World Binary64) 1 2 = .nan ∧
    getDistance (colocatedScenario (.fin (5764607523034235 / 2 ^ 56)) : World Binary64) 2 1 = .nan ∧
    ¬ ∃ d : ℝ, getDistance (colocatedScenario (.fin (5764607523034235 / 2 ^ 56)) : World Binary64)
      1 2 = .fin d ∧ 0 ≤ d ∧ d ≤ Real.pi := by
  have hp := colocatedScenario_positions (5764607523034235 / 2 ^ 56)
  have he := colocated_eight_eval
  refine ⟨hp.1, hp.2.1, hp.2.2.1, hp.2.2.2, he.2.1, he.2.2, ?_⟩
  rintro ⟨d, hd, _⟩
  rw [he.2.1] at hd
  exact Binary64.noConfusion hd

/-- C18, evaluated at the failing input: `getDistance` passes the computed sum to
`acos` as it is.  With two targets at longitude `0` and latitude `0.08` the sum is
the double `1 + 2^-52`, above `1`, and `getDistance` is NaN, whereas `acos` of the
sum clamped into `[-1, 1]` is `0`; `setDestination` stores the NaN as the route
length. -/
theorem getDistance_acos_argument_above_one :
    acosArgument (colocatedScenario (.fin (5764607523034235 / 2 ^ 56)) : World Binary64) 1 2 =
      .fin (4503599627370497 / 2 ^ 52) ∧
    (1 : ℝ) < 4503599627370497 / 2 ^ 52 ∧
    getDistance (colocatedScenario (.fin (5764607523034235 / 2 ^ 56)) : World Binary64) 1 2 =
      acos (acosArgument (colocatedScenario (.fin (5764607523034235 / 2 ^ 56)) : World Binary64)
        1 2) ∧
    getDistance (colocatedScenario (.fin (5764607523034235 / 2 ^ 56)) : World Binary64) 1 2 = .nan ∧
    acos (Binary64.fin (max (-1) (min 1 (4503599627370497 / 2 ^ 52)))) = .fin 0 ∧
    (setDestination (colocatedScenario (.fin (5764607523034235 / 2 ^ 56)) : World Binary64)
      1 (some 2) 1)._distMax = .nan := by
  have he := colocated_eight_eval
  refine ⟨he.1, by norm_num, getDistance_eq_acos _ 1 2, he.2.1, ?_, ?_⟩
  · rw [min_eq_left (by norm_num), max_eq_right (by norm_num),
      b64_acos 1 (by norm_num) le_rfl, Real.arccos_one, roundDouble_zero]
  · rw [(setDestination_some_fields _ 1 2).2, he.2.1]

/-- C13, as the claim states it, fails: two targets at longitude `0` and latitude
`1/16`: `getDistance` is `2^-26`, not `0`, and `setDestination` stores that value
as the route length. -/
theorem getDistance_colocated_counterexample :
    ((colocatedScenario (.fin (1 / 16)) : World Binary64) 1)._lon =
      ((colocatedScenario (.fin (1 / 16)) : World Binary64) 2)._lon ∧
    ((colocatedScenario (.fin (1 / 16)) : World Binary64) 1)._lat =
      ((colocatedScenario (.fin (1 / 16)) : World Binary64) 2)._lat ∧
    getDistance (colocatedScenario (.fin (1 / 16)) : World Binary64) 1 2 = .fin (1 / 2 ^ 26) ∧
    getDistance (colocatedScenario (.fin (1 / 16)) : World Binary64) 1 2 ≠ .fin 0 ∧
    (setDestination (colocatedScenario (.fin (1 / 16)) : World Binary64) 1 (some 2) 1)._distMax ≠
      .fin 0 := by
  have hp := colocatedScenario_positions (1 / 16)
  have he := colocated_sixteenth_eval
  have hne : Binary64.fin (1 / 2 ^ 26) ≠ .fin 0 := by
    intro h
    have := Binary64.fin.inj h
    norm_num at this
  refine ⟨by rw [hp.1, hp.2.2.1], by rw [hp.2.1, hp.2.2.2], he.2.1, ?_, ?_⟩
  · rw [he.2.1]
    exact hne
  · rw [(setDestination_some_fields _ 1 2).2, he.2.1]
    exact hne

/-- C13, amended: for a moving target and a target at the same finite position,
in double arithmetic, the argument of `acos` is `g`, the rounded sum of the
rounded squares of the doubles `cos(lat)` and `sin(lat)`, which is within `2^-49`
of `1`; `setDestination` stores `getDistance` as the route length; and when `g`
does not exceed `1`, `getDistance` is a number `d` with `0 <= d <= 2^-23` that is
`0` exactly when `g` is `1`. -/
theorem getDistance_colocated_double (w : World Binary64) (m T : Nat) (lon lat : ℝ)
    (h1 : (w m)._lon = .fin lon) (h2 : (w m)._lat = .fin lat)
    (h3 : (w T)._lon = .fin lon) (h4 : (w T)._lat = .fin lat) :
    ∃ g : ℝ,
      g = roundDouble (roundDouble (roundDouble (Real.cos lat) * roundDouble (Real.cos lat)) +
        roundDouble (roundDouble (Real.sin lat) * roundDouble (Real.sin lat))) ∧
      acosArgument w m T = .fin g ∧
      |g - 1| ≤ 1 / 2 ^ 49 ∧
      (setDestination w m (some T) m)._distMax = getDistance w m T ∧
      (g ≤ 1 → ∃ d : ℝ, getDistance w m T = .fin d ∧ 0 ≤ d ∧ d ≤ 1 / 2 ^ 23 ∧
        (d = 0 ↔ g = 1)) := by
  have herr := colocated_argument_err lat
  refine ⟨_, rfl, (colocated_double w m T lon lat h1 h2 h3 h4).1, herr,
    (setDestination_some_fields w m T).2, ?_⟩
  intro hg
  have h0 := roundDouble_sq_add_sq_nonneg (roundDouble (Real.cos lat)) (roundDouble (Real.sin lat))
  have hd := getDistance_eq_acos w m T
  rw [(colocated_double w m T lon lat h1 h2 h3 h4).1, b64_acos _ (by linarith) hg] at hd
  refine ⟨_, hd, roundDouble_nonneg _ (Real.arccos_nonneg _),
    acos_near_one _ (by linarith [(abs_le.mp herr).1]) hg, ?_⟩
  rw [roundDouble_eq_zero_iff, Real.arccos_eq_zero]
  exact ⟨fun h => le_antisymm hg h, fun h => h.ge⟩

/-- At the blank position `(0, 0)` the sum is exactly `1`, so the distance and the
stored route length are `0`. -/
theorem getDistance_colocated_double_witness :
    ((World.fresh : World Binary64) 1)._lon = .fin 0 ∧
    ((World.fresh : World Binary64) 1)._lat = .fin 0 ∧
    ((World.fresh : World Binary64) 2)._lon = .fin 0 ∧
    ((World.fresh : World Binary64) 2)._lat = .fin 0 ∧
    acosArgument (World.fresh : World Binary64) 1 2 = .fin 1 ∧
    getDistance (World.fresh : World Binary64) 1 2 = .fin 0 ∧
    (setDestination (World.fresh : World Binary64) 1 (some 2) 1)._distMax = .fin 0 := by
  obtain ⟨g, hg, harg, _, hmax, h⟩ := getDistance_colocated_double World.fresh 1 2 0 0
    b64_ofInt_zero b64_ofInt_zero b64_ofInt_zero b64_ofInt_zero
  have hg1 : g = 1 := by
    rw [hg, Real.cos_zero, Real.sin_zero, rd_int_1, roundDouble_zero, mul_one, mul_zero, rd_int_1,
      roundDouble_zero, add_zero, rd_int_1]
  obtain ⟨d, hd, _, _, hiff⟩ := h hg1.le
  have hd0 : d = 0 := hiff.mpr hg1
  rw [hd0] at hd
  rw [hg1] at harg
  exact ⟨b64_ofInt_zero, b64_ofInt_zero, b64_ofInt_zero, b64_ofInt_zero, harg, hd,
    by rw [hmax, hd]⟩

end OpenXcom
